import Mathlib

/-!
Verification development for the skill matching and gap-scoring engine
(`app/services/skill_matching.py`, `app/services/gap_analysis.py`,
`app/services/fit_score.py`, data model in `app/models/schemas.py`).

Python floats are modelled as exact rationals (`ℚ`); Python strings as
Lean `String` (ASCII operations, which is what the normalization tables
use).  The string-similarity function `levenshtein_ratio` is imported in
the source behind a `try/except` (the `Levenshtein` package, with a
`difflib.SequenceMatcher` fallback), so the matcher definitions below are
parameterized by an arbitrary similarity function `ratio`; the concrete
primary branch (indel similarity, `2*lcs/(len1+len2)`) is also provided
as `SkillMatcher.levenshtein_ratio` for evaluating concrete instances.
-/

namespace CapstoneApp

/-- Strip whitespace from both ends of a char list (`str.strip()`).
All string functions in this file are implemented on `List Char` (the
`data` of a `String`) so that the kernel can evaluate concrete instances. -/
def listStrip (l : List Char) : List Char :=
  ((l.dropWhile Char.isWhitespace).reverse.dropWhile Char.isWhitespace).reverse

/-- `str.lower()` (ASCII). -/
def pyLower (s : String) : String := ⟨s.data.map Char.toLower⟩

/-- `str.strip()`. -/
def pyStrip (s : String) : String := ⟨listStrip s.data⟩

/-- `str.lower().strip()` as used throughout the source. -/
def pyLowerStrip (s : String) : String := pyStrip (pyLower s)

/-- Skill categories, from `app/models/skill_taxonomy.py` (`SkillCategory`). -/
inductive SkillCategory where
  | programming_languages
  | frameworks_libraries
  | tools_platforms
  | databases
  | cloud_services
  | devops
  | software_architecture
  | machine_learning
  | blockchain
  | cybersecurity
  | data_science
  | leadership
  | communication
  | collaboration
  | problem_solving
  | analytical_thinking
  | agile
  | scrum
  | ci_cd
  | design_thinking
  | education
  | certifications
  | fintech
  | healthcare_it
  | e_commerce
  | other
  deriving DecidableEq, Repr

/-- `Skill` from `app/models/schemas.py`.  `confidence` and `aliases` are
carried but never consulted by the matcher or scorer. -/
structure Skill where
  name : String
  category : SkillCategory
  confidence : Option ℚ := none
  aliases : List String := []
  deriving DecidableEq, Repr

/-- `SkillMatch` from `app/models/schemas.py`: the `skill` field holds the
resume-side skill.  (Its pydantic bound `confidence ∈ [0, 1]` always holds
for the similarity functions actually imported, whose values lie in
`[0, 1]`, so it is not modelled as a fallible construction.) -/
structure SkillMatch where
  skill : Skill
  match_type : String
  confidence : ℚ
  deriving DecidableEq, Repr

namespace SkillMatcher

/-- `SKILL_SYNONYMS` table from `skill_matching.py` (insertion order of the
dict literal; the Python values are sets, used only for membership, so a
list representation is equivalent). -/
def SKILL_SYNONYMS : List (String × List String) :=
  [ ("javascript", ["js", "ecmascript", "nodejs", "node.js"]),
    ("typescript", ["ts"]),
    ("c++", ["cpp", "c plus plus"]),
    ("c#", ["csharp", "c-sharp", "dotnet", ".net"]),
    ("python", ["py"]),
    ("java", ["jvm"]),
    ("go", ["golang"]),
    ("react", ["reactjs", "react.js"]),
    ("angular", ["angularjs", "angular.js"]),
    ("vue", ["vuejs", "vue.js"]),
    ("node.js", ["nodejs", "node", "npm"]),
    ("spring boot", ["springboot", "spring"]),
    ("aws", ["amazon web services", "amazon aws"]),
    ("azure", ["microsoft azure"]),
    ("gcp", ["google cloud", "google cloud platform"]),
    ("kubernetes", ["k8s"]),
    ("ci/cd", ["cicd", "continuous integration", "continuous deployment"]),
    ("postgresql", ["postgres"]),
    ("mongodb", ["mongo"]),
    ("agile", ["agile methodology", "agile development"]),
    ("scrum", ["scrum methodology"]),
    ("problem solving", ["problem-solving", "troubleshooting", "debugging"]),
    ("communication", ["communication skills", "verbal communication", "written communication"]),
    ("leadership", ["leadership skills", "team leadership"]) ]

/-- `re.sub(pat ++ "$", "", s)` for a literal suffix pattern such as `\.js$`. -/
def stripEndRule (suf : String) (s : String) : String :=
  if suf.data.reverse.isPrefixOf s.data.reverse then
    ⟨(s.data.reverse.drop suf.data.length).reverse⟩
  else s

/-- Collapse runs of `' '` to a single `' '` (helper for `\s+ -> ' '`). -/
def collapseRuns : List Char → List Char
  | [] => []
  | [c] => [c]
  | c1 :: c2 :: rest =>
    if c1 = ' ' && c2 = ' ' then collapseRuns (c2 :: rest)
    else c1 :: collapseRuns (c2 :: rest)

/-- `re.sub(r'\s+', ' ', s)`: every maximal whitespace run becomes one space. -/
def collapseWS (s : String) : String :=
  ⟨collapseRuns (s.data.map (fun c => if c.isWhitespace then ' ' else c))⟩

/-- `re.sub(r'[-_]', ' ', s)`. -/
def replaceHyphens (s : String) : String :=
  ⟨s.data.map (fun c => if c = '-' ∨ c = '_' then ' ' else c)⟩

def headIsWS : List Char → Bool
  | [] => false
  | c :: _ => c.isWhitespace

def qualifierHeadWords : List String :=
  ["proficient", "experienced", "skilled", "expert", "knowledge", "familiar"]

def qualifierTailWords : List String :=
  ["experience", "proficiency", "skills", "skill", "knowledge"]

/-- `re.sub(r'^(proficient|experienced|skilled|expert|knowledge|familiar)\s+', '', s)`:
the regex alternatives are tried in order, each requiring at least one
whitespace character after the word; the greedy `\s+` consumes the whole run. -/
def stripQualHead (s : String) : String :=
  match qualifierHeadWords.find?
      (fun w => w.data.isPrefixOf s.data && headIsWS (s.data.drop w.length)) with
  | some w => ⟨(s.data.drop w.length).dropWhile Char.isWhitespace⟩
  | none => s

/-- `re.sub(r'\s+(experience|proficiency|skills?|knowledge)$', '', s)`:
`skills?` backtracks greedily, i.e. the alternatives in effect are
`experience | proficiency | skills | skill | knowledge`. -/
def stripQualTail (s : String) : String :=
  let r := s.data.reverse
  match qualifierTailWords.find?
      (fun w => w.data.reverse.isPrefixOf r && headIsWS (r.drop w.length)) with
  | some w => ⟨((r.drop w.length).dropWhile Char.isWhitespace).reverse⟩
  | none => s

/-- `SkillMatcher.normalize_skill_name`, step by step in source order:
empty guard; `lower().strip()`; the `NORMALIZATION_RULES` dict in insertion
order (`\.js$`, `\.jsx$`, `\.ts$`, `\.tsx$` suffix removal, `\s+ -> ' '`,
`[-_] -> ' '`); one more `\s+ -> ' '` plus `strip()`; qualifier-word
removal at the start and the end. -/
def normalize_skill_name (s : String) : String :=
  if s = "" then ""
  else
    let n := pyLowerStrip s
    let n := stripEndRule ".js" n
    let n := stripEndRule ".jsx" n
    let n := stripEndRule ".ts" n
    let n := stripEndRule ".tsx" n
    let n := collapseWS n
    let n := replaceHyphens n
    let n := pyStrip (collapseWS n)
    let n := stripQualHead n
    stripQualTail n

/-- `SkillMatcher.get_synonyms`: the result set is represented as a list
with possible duplicates (it is only ever used for membership and
intersection tests). -/
def get_synonyms (name : String) : List String :=
  let n := normalize_skill_name name
  let s1 := SKILL_SYNONYMS.foldl
    (fun acc kv =>
      if n = kv.1 ∨ n ∈ kv.2 then acc ++ kv.1 :: kv.2
      else if n ∈ (kv.1 :: kv.2).map normalize_skill_name then acc ++ kv.1 :: kv.2
      else acc)
    [n]
  SKILL_SYNONYMS.foldl
    (fun acc kv => if n = normalize_skill_name kv.1 then acc ++ kv.1 :: kv.2 else acc)
    s1

/-- `SkillMatcher.exact_match`. -/
def exact_match (s1 s2 : Skill) : Bool :=
  normalize_skill_name s1.name = normalize_skill_name s2.name

/-- `SkillMatcher.synonym_match`: non-empty intersection of synonym sets. -/
def synonym_match (s1 s2 : Skill) : Bool :=
  (get_synonyms s1.name).any (fun x => x ∈ get_synonyms s2.name)

/-- `SkillMatcher.category_match`. -/
def category_match (s1 s2 : Skill) : Bool :=
  s1.category = s2.category

/-- `FUZZY_THRESHOLD = 0.85` (rational literals are written with `mkRat` so
that the kernel can evaluate concrete runs; the values are exact). -/
def FUZZY_THRESHOLD : ℚ := mkRat 85 100

/-- `EXACT_MATCH_CONFIDENCE = 1.0`. -/
def EXACT_MATCH_CONFIDENCE : ℚ := 1

/-- `SYNONYM_MATCH_CONFIDENCE = 0.95`. -/
def SYNONYM_MATCH_CONFIDENCE : ℚ := mkRat 95 100

/-- `FUZZY_MATCH_CONFIDENCE = 0.80`. -/
def FUZZY_MATCH_CONFIDENCE : ℚ := mkRat 80 100

/-- `CATEGORY_MATCH_CONFIDENCE = 0.70`. -/
def CATEGORY_MATCH_CONFIDENCE : ℚ := mkRat 70 100

/-- `SkillMatcher.fuzzy_match` at the default threshold,
parameterized by the similarity function. -/
def fuzzy_match (ratio : String → String → ℚ) (s1 s2 : Skill) : Bool × ℚ :=
  let sim := ratio (normalize_skill_name s1.name) (normalize_skill_name s2.name)
  (decide (FUZZY_THRESHOLD ≤ sim), sim)

/-- `SkillMatcher.match_skills`: 4-tier cascade (exact 1.0, synonym 0.95,
fuzzy `sim * 0.80`, same-category with `sim ≥ 0.6` giving `sim * 0.70`). -/
def match_skills (ratio : String → String → ℚ) (s1 s2 : Skill) : Option SkillMatch :=
  if exact_match s1 s2 then some ⟨s1, "exact", EXACT_MATCH_CONFIDENCE⟩
  else if synonym_match s1 s2 then some ⟨s1, "synonym", SYNONYM_MATCH_CONFIDENCE⟩
  else
    let fz := fuzzy_match ratio s1 s2
    if fz.1 then some ⟨s1, "fuzzy", fz.2 * FUZZY_MATCH_CONFIDENCE⟩
    else if category_match s1 s2 then
      let sim := ratio (normalize_skill_name s1.name) (normalize_skill_name s2.name)
      if mkRat 60 100 ≤ sim then some ⟨s1, "category", sim * CATEGORY_MATCH_CONFIDENCE⟩
      else none
    else none

/-- Inner loop of `find_matches` (`for idx, resume_skill in enumerate(...)`):
state is (best match with its index, best confidence so far), starting from
`(None, 0.0)`; an unconsumed candidate replaces the state only when its
confidence is strictly greater. -/
def bestAux (ratio : String → String → ℚ) (used : List Nat) (jdS : Skill) :
    List Skill → Nat → Option (SkillMatch × Nat) × ℚ → Option (SkillMatch × Nat) × ℚ
  | [], _, acc => acc
  | r :: rs, i, acc =>
    let acc' :=
      if i ∈ used then acc
      else
        match match_skills ratio r jdS with
        | none => acc
        | some m => if acc.2 < m.confidence then (some (m, i), m.confidence) else acc
    bestAux ratio used jdS rs (i + 1) acc'

/-- Best not-yet-consumed resume candidate for one JD skill. -/
def bestCandidate (ratio : String → String → ℚ) (used : List Nat)
    (resume : List Skill) (jdS : Skill) : Option (SkillMatch × Nat) :=
  (bestAux ratio used jdS resume 0 (none, 0)).1

/-- One iteration of the outer loop of `find_matches`: append the best
match (if any) and consume its resume index. -/
def fmStep (ratio : String → String → ℚ) (resume_skills : List Skill)
    (st : List SkillMatch × List Nat) (jdS : Skill) : List SkillMatch × List Nat :=
  match bestCandidate ratio st.2 resume_skills jdS with
  | some mi => (st.1 ++ [mi.1], mi.2 :: st.2)
  | none => st

/-- `SkillMatcher.find_matches`: greedy pass over the JD skills in order,
consuming the chosen resume index. -/
def find_matches (ratio : String → String → ℚ)
    (resume_skills jd_skills : List Skill) : List SkillMatch :=
  (jd_skills.foldl (fmStep ratio resume_skills)
    (([] : List SkillMatch), ([] : List Nat))).1

/-- `SkillMatcher.find_missing_skills`: a JD skill is kept when its
normalized name is not among the normalized names of the matched (resume)
skills and, double-checking, no resume skill matches it. -/
def find_missing_skills (ratio : String → String → ℚ)
    (resume_skills jd_skills : List Skill) : List Skill :=
  let ms := find_matches ratio resume_skills jd_skills
  let matched_jd_skill_names := ms.map (fun m => normalize_skill_name m.skill.name)
  jd_skills.filter (fun jdS =>
    !(matched_jd_skill_names.contains (normalize_skill_name jdS.name)) &&
      !(resume_skills.any (fun r => (match_skills ratio r jdS).isSome)))

/-- `SkillMatcher.find_extra_skills` (symmetric independent check). -/
def find_extra_skills (ratio : String → String → ℚ)
    (resume_skills jd_skills : List Skill) : List Skill :=
  let ms := find_matches ratio resume_skills jd_skills
  let matched_resume_skill_names := ms.map (fun m => normalize_skill_name m.skill.name)
  resume_skills.filter (fun r =>
    !(matched_resume_skill_names.contains (normalize_skill_name r.name)) &&
      !(jd_skills.any (fun jdS => (match_skills ratio r jdS).isSome)))

/-- One DP row step for the longest-common-subsequence length. -/
def lcsRowNext (ca : Char) : List Char → List Nat → Nat → List Nat
  | [], _, _ => []
  | cb :: bs, prev, left =>
    match prev with
    | [] => []
    | pDiag :: pRest =>
      let pUp := pRest.headD 0
      let cur := if ca = cb then pDiag + 1 else max pUp left
      cur :: lcsRowNext ca bs pRest cur

/-- Longest-common-subsequence length (row-by-row DP). -/
def lcsLen (a b : List Char) : Nat :=
  (a.foldl (fun prev ca => 0 :: lcsRowNext ca b prev 0) (List.replicate (b.length + 1) 0)).getLastD 0

/-- The primary branch of the source's `levenshtein_ratio` import: the
`Levenshtein` package's `ratio`, i.e. the indel similarity
`(len1 + len2 - dist) / (len1 + len2)` with substitution cost 2, which
equals `2 * lcs / (len1 + len2)`, and `1.0` on two empty strings. -/
def levenshtein_ratio (a b : String) : ℚ :=
  if a.length + b.length = 0 then 1
  else Rat.divInt (2 * (lcsLen a.data b.data : ℤ)) ((a.length : ℤ) + (b.length : ℤ))

end SkillMatcher

/-- `Education` from `app/models/schemas.py`.  `degree` and `field` are
`Optional[str]`; Python truthiness (`if edu.degree:`) treats both `None`
and `""` as false. -/
structure Education where
  degree : Option String := none
  field : Option String := none
  required : Bool := true
  preferred : Bool := false
  deriving DecidableEq, Repr

/-- `Certification` from `app/models/schemas.py`. -/
structure Certification where
  name : String
  issuer : Option String := none
  required : Bool := false
  preferred : Bool := false
  deriving DecidableEq, Repr

/-- Python's substring operator `needle in hay` on strings (as char lists). -/
def strContains (needle : List Char) : List Char → Bool
  | [] => needle.isEmpty
  | c :: t => needle.isPrefixOf (c :: t) || strContains needle t

/-- Python truthiness of an `Optional[str]` value. -/
def pyTruthy : Option String → Bool
  | none => false
  | some s => s ≠ ""

/-- `SkillExtractionResult` from `app/models/schemas.py` (the metadata
fields are carried but unused by the matcher and scorer). -/
structure SkillExtractionResult where
  skills : List Skill := []
  education : List Education := []
  certifications : List Certification := []
  extraction_method : String := "llm"
  confidence_score : Option ℚ := none
  raw_text : String := ""
  deriving DecidableEq, Repr

/-- Per-category counters of `GapAnalysis.category_breakdown`. -/
structure CatCounts where
  matched : Nat := 0
  missing : Nat := 0
  extra : Nat := 0
  deriving DecidableEq, Repr

/-- `GapAnalysis` from `app/models/schemas.py`; the `category_breakdown`
dict (insertion-ordered) is an association list. -/
structure GapAnalysis where
  matched_skills : List SkillMatch := []
  missing_skills : List Skill := []
  extra_skills : List Skill := []
  category_breakdown : List (SkillCategory × CatCounts) := []
  deriving DecidableEq, Repr

namespace GapAnalyzer

/-- `GapAnalyzer.TECHNICAL_CATEGORIES`. -/
def TECHNICAL_CATEGORIES : List SkillCategory :=
  [.programming_languages, .frameworks_libraries, .tools_platforms, .databases,
   .cloud_services, .devops, .software_architecture, .machine_learning,
   .blockchain, .cybersecurity, .data_science]

/-- `GapAnalyzer.SOFT_SKILL_CATEGORIES`. -/
def SOFT_SKILL_CATEGORIES : List SkillCategory :=
  [.leadership, .communication, .collaboration, .problem_solving, .analytical_thinking]

/-- Upsert used by `_generate_category_breakdown`: a category entry is
created as `{matched:0, missing:0, extra:0}` on first touch (appended, as
in an insertion-ordered dict) and then one counter is incremented. -/
def bump (f : CatCounts → CatCounts) (c : SkillCategory)
    (bd : List (SkillCategory × CatCounts)) : List (SkillCategory × CatCounts) :=
  if bd.any (fun kv => kv.1 = c) then
    bd.map (fun kv => if kv.1 = c then (kv.1, f kv.2) else kv)
  else bd ++ [(c, f {})]

/-- `GapAnalyzer._generate_category_breakdown`. -/
def generate_category_breakdown (matched : List SkillMatch)
    (missing extra : List Skill) : List (SkillCategory × CatCounts) :=
  let bd := matched.foldl
    (fun bd m => bump (fun t => { t with matched := t.matched + 1 }) m.skill.category bd) []
  let bd := missing.foldl
    (fun bd s => bump (fun t => { t with missing := t.missing + 1 }) s.category bd) bd
  extra.foldl
    (fun bd s => bump (fun t => { t with extra := t.extra + 1 }) s.category bd) bd

/-- `GapAnalyzer.analyze_gap`. -/
def analyze_gap (ratio : String → String → ℚ)
    (resume_skills jd_skills : SkillExtractionResult) : GapAnalysis :=
  let matched := SkillMatcher.find_matches ratio resume_skills.skills jd_skills.skills
  let missing := SkillMatcher.find_missing_skills ratio resume_skills.skills jd_skills.skills
  let extra := SkillMatcher.find_extra_skills ratio resume_skills.skills jd_skills.skills
  { matched_skills := matched
    missing_skills := missing
    extra_skills := extra
    category_breakdown := generate_category_breakdown matched missing extra }

end GapAnalyzer

/-- `FitScoreBreakdown` from `app/models/schemas.py` (the pydantic range
validation lives in `mkFitScoreBreakdown` below). -/
structure FitScoreBreakdown where
  overall_score : ℚ
  technical_score : ℚ
  soft_skills_score : ℚ
  education_score : Option ℚ
  certification_score : Option ℚ
  matched_count : Nat
  missing_count : Nat
  total_jd_skills : Nat
  technical_weight : ℚ
  soft_skills_weight : ℚ
  deriving DecidableEq, Repr

/-- The pydantic `ge=0.0, le=100.0` bound on the score fields. -/
def scoreInRange (q : ℚ) : Prop :=
  0 ≤ q ∧ q ≤ 100

instance (q : ℚ) : Decidable (scoreInRange q) := by unfold scoreInRange; infer_instance

/-- The pydantic bound applied to an optional score field. -/
def optScoreInRange : Option ℚ → Prop
  | none => True
  | some q => scoreInRange q

instance (o : Option ℚ) : Decidable (optScoreInRange o) := by
  cases o <;> simp only [optScoreInRange] <;> infer_instance

/-- Constructing a `FitScoreBreakdown` validates every score field against
`[0, 100]` (pydantic raises `ValidationError` otherwise, modelled as `none`);
the count and weight fields carry no constraint. -/
def mkFitScoreBreakdown (ov te so : ℚ) (ed ce : Option ℚ)
    (mc mic tot : Nat) (tw sw : ℚ) : Option FitScoreBreakdown :=
  if scoreInRange ov ∧ scoreInRange te ∧ scoreInRange so ∧
      optScoreInRange ed ∧ optScoreInRange ce then
    some ⟨ov, te, so, ed, ce, mc, mic, tot, tw, sw⟩
  else none

/-- Python's `round(x, 2)`: round-half-to-even at two decimal places
(exact on the rational model of the float values involved). -/
def roundHalfEven (q : ℚ) : ℤ :=
  let f := ⌊q⌋
  let frac := q - f
  if frac < 1 / 2 then f
  else if 1 / 2 < frac then f + 1
  else if f % 2 = 0 then f else f + 1

/-- `round(x, 2)`. -/
def round2 (q : ℚ) : ℚ :=
  (roundHalfEven (q * 100) : ℚ) / 100

namespace FitScoreCalculator

/-- `FitScoreCalculator._calculate_technical_score`. -/
def calculate_technical_score (gap_analysis : GapAnalysis)
    (jd_skills : SkillExtractionResult) : ℚ :=
  let jd_technical := jd_skills.skills.filter
    (fun s => s.category ∈ GapAnalyzer.TECHNICAL_CATEGORIES)
  if jd_technical = [] then 100
  else
    let matched_technical := gap_analysis.matched_skills.filter
      (fun m => m.skill.category ∈ GapAnalyzer.TECHNICAL_CATEGORIES)
    min 100 (max 0 ((matched_technical.length : ℚ) / (jd_technical.length : ℚ) * 100))

/-- `FitScoreCalculator._calculate_soft_skills_score`. -/
def calculate_soft_skills_score (gap_analysis : GapAnalysis)
    (jd_skills : SkillExtractionResult) : ℚ :=
  let jd_soft := jd_skills.skills.filter
    (fun s => s.category ∈ GapAnalyzer.SOFT_SKILL_CATEGORIES)
  if jd_soft = [] then 100
  else
    let matched_soft := gap_analysis.matched_skills.filter
      (fun m => m.skill.category ∈ GapAnalyzer.SOFT_SKILL_CATEGORIES)
    min 100 (max 0 ((matched_soft.length : ℚ) / (jd_soft.length : ℚ) * 100))

/-- `degree_mapping` from `_normalize_degree`, in dict insertion order. -/
def degree_mapping : List (String × String) :=
  [ ("bachelor", "bachelor"), ("bachelor's", "bachelor"), ("bs", "bachelor"),
    ("ba", "bachelor"), ("b.sc", "bachelor"),
    ("master", "master"), ("master's", "master"), ("ms", "master"),
    ("ma", "master"), ("m.sc", "master"),
    ("phd", "phd"), ("ph.d", "phd"), ("doctorate", "phd"), ("doctor", "phd") ]

/-- The `for key, value in degree_mapping.items(): if key in degree_lower`
loop: first table entry (in order) whose key is a substring. -/
def findDegree : List (String × String) → String → Option String
  | [], _ => none
  | kv :: rest, dl => if strContains kv.1.data dl.data then some kv.2 else findDegree rest dl

/-- `FitScoreCalculator._normalize_degree`. -/
def normalize_degree (degree : String) : String :=
  let degree_lower := pyLowerStrip degree
  match findDegree degree_mapping degree_lower with
  | some v => v
  | none => degree_lower

/-- `FitScoreCalculator._normalize_field`. -/
def normalize_field (f : String) : String := pyLowerStrip f

/-- The inner-loop condition of `_match_education` for one (jd, resume)
education pair: both degrees truthy and equal after normalization, and,
when the JD entry has a truthy field, the resume field truthy and equal
after normalization. -/
def eduPairMatch (jdE resE : Education) : Bool :=
  if pyTruthy jdE.degree && pyTruthy resE.degree then
    if normalize_degree (jdE.degree.getD "") = normalize_degree (resE.degree.getD "") then
      if pyTruthy jdE.field then
        pyTruthy resE.field &&
          (normalize_field (jdE.field.getD "") = normalize_field (resE.field.getD ""))
      else true
    else false
  else false

/-- `FitScoreCalculator._match_education`: each JD entry is appended at
most once (the inner loop breaks on the first resume entry that fires), so
the result is the JD entries, in order, for which some resume entry fires. -/
def match_education (resume_education jd_education : List Education) : List Education :=
  jd_education.filter (fun jdE => resume_education.any (eduPairMatch jdE))

/-- `FitScoreCalculator._calculate_education_score`. -/
def calculate_education_score (resume_education jd_education : List Education) :
    Option ℚ :=
  if jd_education = [] then none
  else
    let required_education := jd_education.filter (fun e => e.required)
    if required_education ≠ [] then
      let ms := match_education resume_education required_education
      if ms ≠ [] then
        let preferred_education := jd_education.filter (fun e => e.preferred)
        if preferred_education ≠ [] then
          let preferred_matches := match_education resume_education preferred_education
          some (min 100
            (100 + (preferred_matches.length : ℚ) / (preferred_education.length : ℚ) * 20))
        else some 100
      else some 0
    else
      let preferred_education := jd_education.filter (fun e => e.preferred)
      if preferred_education ≠ [] then
        let ms := match_education resume_education preferred_education
        some (min 100 (max 0 ((ms.length : ℚ) / (preferred_education.length : ℚ) * 100)))
      else none

/-- `FitScoreCalculator._normalize_cert_name` / `_normalize_issuer`. -/
def normalize_cert_name (name : String) : String := pyLowerStrip name

/-- Inner-loop condition of `_match_certifications` for one pair:
one normalized name contains the other, and, when the JD certification has
a truthy issuer, the resume issuer is truthy and equal after lowering. -/
def certPairMatch (jdC resC : Certification) : Bool :=
  let cn := normalize_cert_name jdC.name
  let rn := normalize_cert_name resC.name
  if strContains cn.data rn.data || strContains rn.data cn.data then
    if pyTruthy jdC.issuer then
      pyTruthy resC.issuer &&
        (normalize_cert_name (jdC.issuer.getD "") = normalize_cert_name (resC.issuer.getD ""))
    else true
  else false

/-- `FitScoreCalculator._match_certifications` (same break-on-append shape
as `_match_education`). -/
def match_certifications (resume_certifications jd_certifications : List Certification) :
    List Certification :=
  jd_certifications.filter (fun jdC => resume_certifications.any (certPairMatch jdC))

/-- `FitScoreCalculator._calculate_certification_score`. -/
def calculate_certification_score
    (resume_certifications jd_certifications : List Certification) : Option ℚ :=
  if jd_certifications = [] then none
  else
    let required_certs := jd_certifications.filter (fun c => c.required)
    if required_certs ≠ [] then
      let ms := match_certifications resume_certifications required_certs
      if ms ≠ [] then
        let preferred_certs := jd_certifications.filter (fun c => c.preferred)
        if preferred_certs ≠ [] then
          let preferred_matches := match_certifications resume_certifications preferred_certs
          some (min 100
            (100 + (preferred_matches.length : ℚ) / (preferred_certs.length : ℚ) * 20))
        else some 100
      else some 0
    else
      let preferred_certs := jd_certifications.filter (fun c => c.preferred)
      if preferred_certs ≠ [] then
        let ms := match_certifications resume_certifications preferred_certs
        some (min 100 (max 0 ((ms.length : ℚ) / (preferred_certs.length : ℚ) * 100)))
      else none

/-- The weights actually stored and used by `calculate_fit_score`:
defaults `0.7` / `0.3` substituted for missing arguments, then both divided
by their sum — but only under the `total_weight > 0` guard. -/
def effectiveWeights (technical_weight soft_skills_weight : Option ℚ) : ℚ × ℚ :=
  let tw := technical_weight.getD 0.7
  let sw := soft_skills_weight.getD 0.3
  let total_weight := tw + sw
  if 0 < total_weight then (tw / total_weight, sw / total_weight) else (tw, sw)

/-- `FitScoreCalculator.calculate_fit_score`.  Returns `none` exactly when
the pydantic validation of the produced `FitScoreBreakdown` fails. -/
def calculate_fit_score (gap_analysis : GapAnalysis)
    (resume_skills jd_skills : SkillExtractionResult)
    (technical_weight soft_skills_weight : Option ℚ)
    (include_education include_certifications : Bool) : Option FitScoreBreakdown :=
  let w := effectiveWeights technical_weight soft_skills_weight
  let technical_score := calculate_technical_score gap_analysis jd_skills
  let soft_skills_score := calculate_soft_skills_score gap_analysis jd_skills
  let overall_score := technical_score * w.1 + soft_skills_score * w.2
  let education_score :=
    if include_education then
      calculate_education_score resume_skills.education jd_skills.education
    else none
  let certification_score :=
    if include_certifications then
      calculate_certification_score resume_skills.certifications jd_skills.certifications
    else none
  mkFitScoreBreakdown (round2 overall_score) (round2 technical_score)
    (round2 soft_skills_score) (education_score.map round2)
    (certification_score.map round2)
    gap_analysis.matched_skills.length gap_analysis.missing_skills.length
    jd_skills.skills.length w.1 w.2

end FitScoreCalculator

/-! ### Generic lemmas -/

theorem length_filter_add_length_filter_not {α : Type} (l : List α) (p : α → Bool) :
    (l.filter p).length + (l.filter (fun a => !(p a))).length = l.length := by
  induction l with
  | nil => rfl
  | cons a t ih =>
    by_cases h : p a = true <;>
      simp only [List.filter_cons, h, Bool.not_true, Bool.not_false, if_pos, if_neg,
        Bool.false_eq_true, not_false_iff, List.length_cons, reduceIte] <;>
      omega

theorem length_filter_le_of_imp {α : Type} (l : List α) (p q : α → Bool)
    (h : ∀ a ∈ l, p a = true → q a = true) :
    (l.filter p).length ≤ (l.filter q).length := by
  induction l with
  | nil => exact le_refl _
  | cons a t ih =>
    have ht : ∀ b ∈ t, p b = true → q b = true := fun b hb => h b (List.mem_cons_of_mem a hb)
    by_cases hp : p a = true
    · rw [List.filter_cons_of_pos hp, List.filter_cons_of_pos (h a (List.mem_cons_self a t) hp)]
      exact Nat.succ_le_succ (ih ht)
    · rw [List.filter_cons_of_neg (by simpa using hp)]
      refine (ih ht).trans ?_
      by_cases hq : q a = true
      · rw [List.filter_cons_of_pos hq]; exact Nat.le_succ _
      · rw [List.filter_cons_of_neg (by simpa using hq)]

theorem le_roundHalfEven {q : ℚ} {n : ℤ} (h : (n : ℚ) ≤ q) : n ≤ roundHalfEven q := by
  have hf : n ≤ ⌊q⌋ := Int.le_floor.mpr h
  unfold roundHalfEven
  dsimp only
  split_ifs <;> omega

theorem roundHalfEven_le {q : ℚ} {n : ℤ} (h : q ≤ (n : ℚ)) : roundHalfEven q ≤ n := by
  have hf : ⌊q⌋ ≤ n := by
    have h2 := Int.floor_le_floor h
    simpa using h2
  have hfe : (⌊q⌋ : ℚ) ≤ q := Int.floor_le q
  have key : 1 / 2 ≤ q - (⌊q⌋ : ℚ) → ⌊q⌋ + 1 ≤ n := by
    intro hh
    rcases lt_or_eq_of_le hf with hl | he
    · omega
    · exfalso
      rw [he] at hh
      have : (n : ℚ) + 1 / 2 ≤ q := by linarith
      linarith
  unfold roundHalfEven
  dsimp only
  split_ifs with h1 h2 h3
  · exact hf
  · exact key (le_of_lt h2)
  · exact hf
  · exact key (not_lt.mp h1)

theorem round2_bounds {q : ℚ} (h0 : 0 ≤ q) (h1 : q ≤ 100) :
    0 ≤ round2 q ∧ round2 q ≤ 100 := by
  have hl : (0 : ℤ) ≤ roundHalfEven (q * 100) := le_roundHalfEven (by push_cast; linarith)
  have hu : roundHalfEven (q * 100) ≤ (10000 : ℤ) := roundHalfEven_le (by push_cast; linarith)
  unfold round2
  constructor
  · apply div_nonneg _ (by norm_num)
    exact_mod_cast hl
  · rw [div_le_iff₀ (by norm_num)]
    calc ((roundHalfEven (q * 100) : ℚ)) ≤ 10000 := by exact_mod_cast hu
    _ = 100 * 100 := by norm_num

theorem round2_eq_of_floor {q : ℚ} {n : ℤ} (h1 : ⌊q * 100⌋ = n) (h2 : q * 100 - n < 1 / 2) :
    round2 q = (n : ℚ) / 100 := by
  rw [round2, roundHalfEven]
  simp only [h1]
  rw [if_pos h2]

theorem clamp_eval {x y : ℚ} (h0 : 0 ≤ x) (h1 : x ≤ 100) (he : y = x) :
    min 100 (max 0 y) = x := by
  rw [he, max_eq_right h0, min_eq_right h1]

theorem clamp_bounds (y : ℚ) : 0 ≤ min 100 (max 0 y) ∧ min 100 (max 0 y) ≤ 100 :=
  ⟨le_min (by norm_num) (le_max_left 0 y), min_le_left _ _⟩

/-! ### Fit-score lemmas -/

namespace FitScoreCalculator

theorem technical_score_bounds (gap : GapAnalysis) (js : SkillExtractionResult) :
    0 ≤ calculate_technical_score gap js ∧ calculate_technical_score gap js ≤ 100 := by
  unfold calculate_technical_score
  dsimp only
  split_ifs
  · norm_num
  · exact clamp_bounds _

theorem soft_skills_score_bounds (gap : GapAnalysis) (js : SkillExtractionResult) :
    0 ≤ calculate_soft_skills_score gap js ∧ calculate_soft_skills_score gap js ≤ 100 := by
  unfold calculate_soft_skills_score
  dsimp only
  split_ifs
  · norm_num
  · exact clamp_bounds _

theorem education_score_bounds (r j : List Education) {q : ℚ}
    (h : calculate_education_score r j = some q) : 0 ≤ q ∧ q ≤ 100 := by
  unfold calculate_education_score at h
  dsimp only at h
  split_ifs at h <;> rcases Option.some.inj h with rfl
  · constructor
    · refine le_min (by norm_num) ?_
      positivity
    · exact min_le_left _ _
  · norm_num
  · norm_num
  · exact clamp_bounds _

theorem certification_score_bounds (r j : List Certification) {q : ℚ}
    (h : calculate_certification_score r j = some q) : 0 ≤ q ∧ q ≤ 100 := by
  unfold calculate_certification_score at h
  dsimp only at h
  split_ifs at h <;> rcases Option.some.inj h with rfl
  · constructor
    · refine le_min (by norm_num) ?_
      positivity
    · exact min_le_left _ _
  · norm_num
  · norm_num
  · exact clamp_bounds _

theorem effectiveWeights_props (tw sw : Option ℚ)
    (h1 : 0 ≤ tw.getD 0.7) (h2 : 0 ≤ sw.getD 0.3) :
    0 ≤ (effectiveWeights tw sw).1 ∧ 0 ≤ (effectiveWeights tw sw).2 ∧
      (effectiveWeights tw sw).1 + (effectiveWeights tw sw).2 ≤ 1 := by
  unfold effectiveWeights
  dsimp only
  split_ifs with h
  · refine ⟨div_nonneg h1 (le_of_lt h), div_nonneg h2 (le_of_lt h), ?_⟩
    rw [div_add_div_same, div_self (ne_of_gt h)]
  · have ht : tw.getD 0.7 = 0 := by
      have := not_lt.mp h
      linarith
    have hs : sw.getD 0.3 = 0 := by
      have := not_lt.mp h
      linarith
    simp [ht, hs]

theorem mkFitScoreBreakdown_some {ov te so : ℚ} {ed ce : Option ℚ}
    {mc mic tot : Nat} {tw sw : ℚ} {b : FitScoreBreakdown}
    (h : mkFitScoreBreakdown ov te so ed ce mc mic tot tw sw = some b) :
    b = ⟨ov, te, so, ed, ce, mc, mic, tot, tw, sw⟩ := by
  unfold mkFitScoreBreakdown at h
  split_ifs at h
  exact (Option.some.inj h).symm

theorem mkFitScoreBreakdown_eq_some {ov te so : ℚ} {ed ce : Option ℚ}
    {mc mic tot : Nat} {tw sw : ℚ}
    (h : scoreInRange ov ∧ scoreInRange te ∧ scoreInRange so ∧
      optScoreInRange ed ∧ optScoreInRange ce) :
    mkFitScoreBreakdown ov te so ed ce mc mic tot tw sw =
      some ⟨ov, te, so, ed, ce, mc, mic, tot, tw, sw⟩ := by
  unfold mkFitScoreBreakdown
  rw [if_pos h]

theorem calculate_technical_score_of_counts {gap : GapAnalysis}
    {js : SkillExtractionResult} {lm ln : ℕ}
    (hjd : (js.skills.filter
      (fun s => s.category ∈ GapAnalyzer.TECHNICAL_CATEGORIES)).length = ln)
    (hne : ln ≠ 0)
    (hm : (gap.matched_skills.filter
      (fun m => m.skill.category ∈ GapAnalyzer.TECHNICAL_CATEGORIES)).length = lm) :
    calculate_technical_score gap js = min 100 (max 0 ((lm : ℚ) / (ln : ℚ) * 100)) := by
  unfold calculate_technical_score
  dsimp only
  rw [if_neg (by intro hnil; rw [hnil] at hjd; simp at hjd; omega), hjd, hm]

theorem calculate_soft_score_of_counts {gap : GapAnalysis}
    {js : SkillExtractionResult} {lm ln : ℕ}
    (hjd : (js.skills.filter
      (fun s => s.category ∈ GapAnalyzer.SOFT_SKILL_CATEGORIES)).length = ln)
    (hne : ln ≠ 0)
    (hm : (gap.matched_skills.filter
      (fun m => m.skill.category ∈ GapAnalyzer.SOFT_SKILL_CATEGORIES)).length = lm) :
    calculate_soft_skills_score gap js = min 100 (max 0 ((lm : ℚ) / (ln : ℚ) * 100)) := by
  unfold calculate_soft_skills_score
  dsimp only
  rw [if_neg (by intro hnil; rw [hnil] at hjd; simp at hjd; omega), hjd, hm]

end FitScoreCalculator

/-! ### Matcher lemmas -/

namespace SkillMatcher

theorem match_skills_exact (ratio : String → String → ℚ) (s1 s2 : Skill)
    (h : normalize_skill_name s1.name = normalize_skill_name s2.name) :
    match_skills ratio s1 s2 = some ⟨s1, "exact", EXACT_MATCH_CONFIDENCE⟩ := by
  have hb : exact_match s1 s2 = true := by
    unfold exact_match
    exact decide_eq_true h
  unfold match_skills
  rw [if_pos hb]

theorem match_skills_skill_eq (ratio : String → String → ℚ) {s1 s2 : Skill}
    {m : SkillMatch} (h : match_skills ratio s1 s2 = some m) : m.skill = s1 := by
  unfold match_skills at h
  dsimp only at h
  split_ifs at h <;> (rcases Option.some.inj h with rfl; rfl)

theorem match_skills_confidence_pos (ratio : String → String → ℚ) {s1 s2 : Skill}
    {m : SkillMatch} (h : match_skills ratio s1 s2 = some m) : 0 < m.confidence := by
  have hth : (0 : ℚ) < FUZZY_THRESHOLD := by
    unfold FUZZY_THRESHOLD
    rw [Rat.mkRat_eq_div]
    norm_num
  have hcat : (0 : ℚ) < mkRat 60 100 := by
    rw [Rat.mkRat_eq_div]
    norm_num
  unfold match_skills at h
  dsimp only at h
  split_ifs at h with h1 h2 h3 h4 h5
  · rcases Option.some.inj h with rfl
    unfold EXACT_MATCH_CONFIDENCE
    norm_num
  · rcases Option.some.inj h with rfl
    show (0 : ℚ) < SYNONYM_MATCH_CONFIDENCE
    unfold SYNONYM_MATCH_CONFIDENCE
    rw [Rat.mkRat_eq_div]
    norm_num
  · rcases Option.some.inj h with rfl
    have hsim : FUZZY_THRESHOLD ≤ (fuzzy_match ratio s1 s2).2 := by
      have := h3
      unfold fuzzy_match at this ⊢
      exact of_decide_eq_true this
    show (0 : ℚ) < (fuzzy_match ratio s1 s2).2 * FUZZY_MATCH_CONFIDENCE
    have hfc : (0 : ℚ) < FUZZY_MATCH_CONFIDENCE := by
      unfold FUZZY_MATCH_CONFIDENCE
      rw [Rat.mkRat_eq_div]
      norm_num
    exact mul_pos (lt_of_lt_of_le hth hsim) hfc
  · rcases Option.some.inj h with rfl
    show (0 : ℚ) < _ * CATEGORY_MATCH_CONFIDENCE
    have hcc : (0 : ℚ) < CATEGORY_MATCH_CONFIDENCE := by
      unfold CATEGORY_MATCH_CONFIDENCE
      rw [Rat.mkRat_eq_div]
      norm_num
    exact mul_pos (lt_of_lt_of_le hcat h5) hcc

theorem bestAux_sound (ratio : String → String → ℚ) (used : List Nat) (jdS : Skill) :
    ∀ (rs : List Skill) (i : Nat) (acc : Option (SkillMatch × Nat) × ℚ)
      (m : SkillMatch) (idx : Nat),
      (bestAux ratio used jdS rs i acc).1 = some (m, idx) →
      acc.1 = some (m, idx) ∨
        (idx ∉ used ∧ i ≤ idx ∧
          ∃ r, rs.get? (idx - i) = some r ∧ match_skills ratio r jdS = some m) := by
  intro rs
  induction rs with
  | nil =>
    intro i acc m idx h
    exact Or.inl h
  | cons r rst ih =>
    intro i acc m idx h
    rw [bestAux] at h
    rcases ih (i + 1) _ m idx h with hacc | ⟨hnu, hle, r', hget, hm⟩
    · by_cases hu : i ∈ used
      · rw [if_pos hu] at hacc
        exact Or.inl hacc
      · rw [if_neg hu] at hacc
        cases hms : match_skills ratio r jdS with
        | none =>
          rw [hms] at hacc
          exact Or.inl hacc
        | some m' =>
          rw [hms] at hacc
          dsimp only at hacc
          by_cases hc : acc.2 < m'.confidence
          · rw [if_pos hc] at hacc
            obtain ⟨rfl, rfl⟩ := Prod.mk.injEq .. ▸ (Option.some.inj hacc)
            refine Or.inr ⟨hu, le_refl i, r, ?_, hms⟩
            simp
          · rw [if_neg hc] at hacc
            exact Or.inl hacc
    · refine Or.inr ⟨hnu, le_trans (Nat.le_succ i) hle, r', ?_, hm⟩
      have hidx : idx - i = (idx - (i + 1)) + 1 := by omega
      rw [hidx]
      simpa using hget

theorem bestCandidate_sound (ratio : String → String → ℚ) (used : List Nat)
    (resume : List Skill) (jdS : Skill) (m : SkillMatch) (idx : Nat)
    (h : bestCandidate ratio used resume jdS = some (m, idx)) :
    idx ∉ used ∧
      ∃ r, resume.get? idx = some r ∧ match_skills ratio r jdS = some m := by
  unfold bestCandidate at h
  rcases bestAux_sound ratio used jdS resume 0 (none, 0) m idx h with hacc | ⟨hnu, -, r, hget, hm⟩
  · exact Option.noConfusion hacc
  · exact ⟨hnu, r, by simpa using hget, hm⟩

theorem bestCandidate_any (ratio : String → String → ℚ) (used : List Nat)
    (resume : List Skill) (jdS : Skill) (mi : SkillMatch × Nat)
    (h : bestCandidate ratio used resume jdS = some mi) :
    (resume.any fun r => (match_skills ratio r jdS).isSome) = true := by
  obtain ⟨-, r, hget, hm⟩ := bestCandidate_sound ratio used resume jdS mi.1 mi.2 h
  refine List.any_eq_true.mpr ⟨r, List.get?_mem hget, ?_⟩
  rw [hm]
  rfl

/-- Upper bound on the number of matches produced by the greedy fold: each
appended match needs a JD skill that some resume skill matches. -/
theorem foldl_fmStep_length (ratio : String → String → ℚ) (resume : List Skill) :
    ∀ (jd : List Skill) (st : List SkillMatch × List Nat),
      ((jd.foldl (fmStep ratio resume) st).1).length ≤
        st.1.length +
          (jd.filter (fun j => resume.any
            (fun r => (match_skills ratio r j).isSome))).length := by
  intro jd
  induction jd with
  | nil =>
    intro st
    simp
  | cons j rest ih =>
    intro st
    rw [List.foldl_cons]
    cases hbc : bestCandidate ratio st.2 resume j with
    | none =>
      have hstep : fmStep ratio resume st j = st := by
        rw [fmStep, hbc]
      rw [hstep]
      refine (ih st).trans ?_
      rw [List.filter_cons]
      split_ifs
      · simp only [List.length_cons]
        omega
      · exact le_refl _
    | some mi =>
      have hstep : fmStep ratio resume st j = (st.1 ++ [mi.1], mi.2 :: st.2) := by
        rw [fmStep, hbc]
      rw [hstep]
      rw [List.filter_cons, if_pos (bestCandidate_any ratio st.2 resume j mi hbc)]
      have := ih (st.1 ++ [mi.1], mi.2 :: st.2)
      simp only [List.length_append, List.length_cons, List.length_nil] at this ⊢
      omega

/-- Every match produced by the fold references a resume skill. -/
theorem foldl_fmStep_mem (ratio : String → String → ℚ) (resume : List Skill) :
    ∀ (jd : List Skill) (st : List SkillMatch × List Nat),
      (∀ m ∈ st.1, m.skill ∈ resume) →
      ∀ m ∈ (jd.foldl (fmStep ratio resume) st).1, m.skill ∈ resume := by
  intro jd
  induction jd with
  | nil =>
    intro st h
    simpa using h
  | cons j rest ih =>
    intro st hinv
    rw [List.foldl_cons]
    refine ih _ ?_
    intro m hm
    cases hbc : bestCandidate ratio st.2 resume j with
    | none =>
      rw [fmStep, hbc] at hm
      exact hinv m hm
    | some mi =>
      rw [fmStep, hbc] at hm
      rcases List.mem_append.mp hm with hml | hmr
      · exact hinv m hml
      · obtain ⟨-, r, hget, hmatch⟩ :=
          bestCandidate_sound ratio st.2 resume j mi.1 mi.2 hbc
        have hms : m = mi.1 := by simpa using hmr
        rw [hms, match_skills_skill_eq ratio hmatch]
        exact List.get?_mem hget

theorem find_matches_skill_mem (ratio : String → String → ℚ)
    (resume jd : List Skill) :
    ∀ m ∈ find_matches ratio resume jd, m.skill ∈ resume := by
  unfold find_matches
  exact foldl_fmStep_mem ratio resume jd ([], []) (by intro m hm; cases hm)

/-- Invariant of the greedy fold: as many matches as consumed indices, the
consumed indices are distinct, and each consumed index carries a resume
skill whose normalized name is among the matched names. -/
def FMInv (resume : List Skill) (st : List SkillMatch × List Nat) : Prop :=
  st.1.length = st.2.length ∧ st.2.Nodup ∧
    ∀ i ∈ st.2, ∃ r, resume.get? i = some r ∧
      normalize_skill_name r.name ∈
        st.1.map (fun m => normalize_skill_name m.skill.name)

theorem foldl_fmStep_inv (ratio : String → String → ℚ) (resume : List Skill) :
    ∀ (jd : List Skill) (st : List SkillMatch × List Nat),
      FMInv resume st → FMInv resume (jd.foldl (fmStep ratio resume) st) := by
  intro jd
  induction jd with
  | nil =>
    intro st h
    simpa using h
  | cons j rest ih =>
    intro st hinv
    rw [List.foldl_cons]
    refine ih _ ?_
    cases hbc : bestCandidate ratio st.2 resume j with
    | none =>
      rw [fmStep, hbc]
      exact hinv
    | some mi =>
      rw [fmStep, hbc]
      obtain ⟨hlen, hnd, hmem⟩ := hinv
      obtain ⟨hnu, r, hget, hmatch⟩ :=
        bestCandidate_sound ratio st.2 resume j mi.1 mi.2 hbc
      refine ⟨by simp [hlen], List.nodup_cons.mpr ⟨hnu, hnd⟩, ?_⟩
      intro i hi
      rcases List.mem_cons.mp hi with rfl | hold
      · refine ⟨r, hget, ?_⟩
        rw [List.map_append]
        refine List.mem_append_right _ ?_
        simp [match_skills_skill_eq ratio hmatch]
      · obtain ⟨r', hget', hmem'⟩ := hmem i hold
        refine ⟨r', hget', ?_⟩
        rw [List.map_append]
        exact List.mem_append_left _ hmem'

/-- Pigeonhole at positions: a duplicate-free list of indices, each holding
an element satisfying `p`, cannot outnumber the `p`-elements of the list. -/
theorem nodup_index_count {α : Type} (l : List α) (p : α → Bool) (used : List Nat)
    (hnd : used.Nodup)
    (h : ∀ i ∈ used, ∃ a, l.get? i = some a ∧ p a = true) :
    used.length ≤ (l.filter p).length := by
  have hlt : ∀ i ∈ used, i < l.length := by
    intro i hi
    obtain ⟨a, ha, -⟩ := h i hi
    obtain ⟨hl, -⟩ := List.get?_eq_some.mp ha
    exact hl
  have hndF : (used.pmap (fun i hi => (⟨i, hi⟩ : Fin l.length)) hlt).Nodup := by
    refine List.Nodup.pmap ?_ hnd
    intro a ha b hb hab
    simpa using congrArg Fin.val hab
  have hsub : (used.pmap (fun i hi => (⟨i, hi⟩ : Fin l.length)) hlt) ⊆
      (List.finRange l.length).filter (fun i => p (l.get i)) := by
    intro x hx
    obtain ⟨i, hi, rfl⟩ := List.mem_pmap.mp hx
    obtain ⟨a, ha, hpa⟩ := h i hi
    have hget : l.get ⟨i, hlt i hi⟩ = a := by
      obtain ⟨h1, h2⟩ := List.get?_eq_some.mp ha
      exact h2
    rw [List.mem_filter]
    exact ⟨List.mem_finRange _, by rw [hget]; exact hpa⟩
  have hle := (hndF.subperm hsub).length_le
  have hlen : (used.pmap (fun i hi => (⟨i, hi⟩ : Fin l.length)) hlt).length = used.length :=
    List.length_pmap
  have hcount : ((List.finRange l.length).filter (fun i => p (l.get i))).length =
      (l.filter p).length := by
    calc ((List.finRange l.length).filter (fun i => p (l.get i))).length
        = (((List.finRange l.length).filter (fun i => p (l.get i))).map l.get).length :=
          (List.length_map _ _).symm
      _ = (((List.finRange l.length).map l.get).filter p).length := by
          rw [List.filter_map]
          rfl
      _ = (l.filter p).length := by rw [List.finRange_map_get]
  omega

theorem contains_of_mem {l : List String} {x : String} (h : x ∈ l) :
    l.contains x = true :=
  List.elem_eq_true_of_mem h

theorem mem_of_contains {l : List String} {x : String} (h : l.contains x = true) :
    x ∈ l :=
  List.mem_of_elem_eq_true h

/-- The double-check in `find_missing_skills` makes the name-set test
redundant: a JD skill is missing exactly when no resume skill matches it. -/
theorem find_missing_eq_filter (ratio : String → String → ℚ) (R J : List Skill) :
    find_missing_skills ratio R J =
      J.filter (fun j => !(R.any fun r => (match_skills ratio r j).isSome)) := by
  unfold find_missing_skills
  dsimp only
  refine List.filter_congr ?_
  intro j hj
  by_cases ha : (R.any fun r => (match_skills ratio r j).isSome) = true
  · simp [ha]
  · have ha' : (R.any fun r => (match_skills ratio r j).isSome) = false := by
      simpa using ha
    have hc : ((find_matches ratio R J).map
        (fun m => normalize_skill_name m.skill.name)).contains
          (normalize_skill_name j.name) = false := by
      by_contra hcc
      have hcc' : ((find_matches ratio R J).map
          (fun m => normalize_skill_name m.skill.name)).contains
            (normalize_skill_name j.name) = true := by
        simpa using hcc
      obtain ⟨m, hm, heq⟩ := List.mem_map.mp (mem_of_contains hcc')
      have hskill := find_matches_skill_mem ratio R J m hm
      have hexact := match_skills_exact ratio m.skill j heq
      have hany : (R.any fun r => (match_skills ratio r j).isSome) = true :=
        List.any_eq_true.mpr ⟨m.skill, hskill, by rw [hexact]; rfl⟩
      exact ha hany
    rw [hc, ha']
    rfl

end SkillMatcher

/-! ### Claim C3 -/

/-- Claim C3: a JD skill appears among the missing skills exactly when no
resume skill (consumed or not) matches it under the 4-tier `match_skills`
test; moreover a missing JD skill's normalized name never coincides with a
matched (resume-side) name, so nothing is both missing and matched. -/
theorem claim_C3 (ratio : String → String → ℚ) (R J : List Skill) (j : Skill) :
    (j ∈ SkillMatcher.find_missing_skills ratio R J ↔
      j ∈ J ∧ ∀ r ∈ R, SkillMatcher.match_skills ratio r j = none) ∧
    (j ∈ SkillMatcher.find_missing_skills ratio R J →
      SkillMatcher.normalize_skill_name j.name ∉
        (SkillMatcher.find_matches ratio R J).map
          (fun m => SkillMatcher.normalize_skill_name m.skill.name)) := by
  constructor
  · rw [SkillMatcher.find_missing_eq_filter, List.mem_filter]
    constructor
    · rintro ⟨hJ, hp⟩
      refine ⟨hJ, ?_⟩
      intro r hr
      have hfalse : (R.any fun r => (SkillMatcher.match_skills ratio r j).isSome) = false := by
        simpa using hp
      by_contra hne
      have hsome : (SkillMatcher.match_skills ratio r j).isSome = true :=
        Option.ne_none_iff_isSome.mp hne
      have : (R.any fun r => (SkillMatcher.match_skills ratio r j).isSome) = true :=
        List.any_eq_true.mpr ⟨r, hr, hsome⟩
      rw [this] at hfalse
      cases hfalse
    · rintro ⟨hJ, hall⟩
      refine ⟨hJ, ?_⟩
      have : (R.any fun r => (SkillMatcher.match_skills ratio r j).isSome) = false := by
        rcases Bool.eq_false_or_eq_true
            (R.any fun r => (SkillMatcher.match_skills ratio r j).isSome) with ht | hf
        · obtain ⟨r, hr, hsome⟩ := List.any_eq_true.mp ht
          rw [hall r hr] at hsome
          cases hsome
        · exact hf
      rw [this]
      rfl
  · intro hmem
    unfold SkillMatcher.find_missing_skills at hmem
    dsimp only at hmem
    have hp := (List.mem_filter.mp hmem).2
    rw [Bool.and_eq_true] at hp
    intro habs
    have := SkillMatcher.contains_of_mem habs
    rw [this] at hp
    simp at hp

def cSkillTs : Skill := ⟨"typescript", .programming_languages, none, []⟩

/-- Witness for C3: with an empty resume, a JD skill is reported missing. -/
theorem claim_C3_witness :
    cSkillTs ∈ SkillMatcher.find_missing_skills SkillMatcher.levenshtein_ratio [] [cSkillTs] :=
  ((claim_C3 SkillMatcher.levenshtein_ratio [] [cSkillTs] cSkillTs).1).mpr
    ⟨by simp, by intro r hr; cases hr⟩

/-! ### Claim C1 -/

def cSkillJsName : Skill := ⟨"javascript", .programming_languages, none, []⟩

def cSkillJsAbbr : Skill := ⟨"js", .programming_languages, none, []⟩

/-- Counterexample for C1.  First input: resume `["javascript"]`, JD
`["javascript", "js"]` (two distinct normalized JD names): the single resume
skill is consumed by the first JD skill, the second JD skill is matchable
(synonym) so it is not missing, and `1 + 0 ≠ 2`.  Second input: resume
`["js", "javascript"]`, JD `["javascript"]`: `"javascript"` is chosen
(confidence 1.0 beats the synonym's 0.95), and the unconsumed `"js"` is not
extra because it matches the JD skill, so `1 + 0 ≠ 2` on the resume side. -/
theorem claim_C1_counterexample :
    ((GapAnalyzer.analyze_gap SkillMatcher.levenshtein_ratio
        { skills := [cSkillJsName] }
        { skills := [cSkillJsName, cSkillJsAbbr] }).matched_skills.length = 1 ∧
      (GapAnalyzer.analyze_gap SkillMatcher.levenshtein_ratio
        { skills := [cSkillJsName] }
        { skills := [cSkillJsName, cSkillJsAbbr] }).missing_skills.length = 0 ∧
      SkillMatcher.normalize_skill_name cSkillJsName.name ≠
        SkillMatcher.normalize_skill_name cSkillJsAbbr.name ∧
      1 + 0 ≠ 2) ∧
    ((GapAnalyzer.analyze_gap SkillMatcher.levenshtein_ratio
        { skills := [cSkillJsAbbr, cSkillJsName] }
        { skills := [cSkillJsName] }).matched_skills.length = 1 ∧
      (GapAnalyzer.analyze_gap SkillMatcher.levenshtein_ratio
        { skills := [cSkillJsAbbr, cSkillJsName] }
        { skills := [cSkillJsName] }).extra_skills.length = 0 ∧
      1 + 0 ≠ 2) := by
  refine ⟨⟨?_, ?_, ?_, by omega⟩, ⟨?_, ?_, by omega⟩⟩ <;> decide

/-- Claim C1 (amended): the count identities become inequalities (with skill
lists counted with multiplicity): `matched + missing ≤ |JD|` and
`matched + extra ≤ |resume|` — equality fails when a skill's only matching
partners are consumed elsewhere — and no skill is both missing (resp.
extra) and matched: the normalized name of a missing JD skill or of an
extra resume skill never occurs among the matched names. -/
theorem claim_C1 (ratio : String → String → ℚ) (rs js : SkillExtractionResult) :
    (GapAnalyzer.analyze_gap ratio rs js).matched_skills.length +
        (GapAnalyzer.analyze_gap ratio rs js).missing_skills.length
      ≤ js.skills.length ∧
    (GapAnalyzer.analyze_gap ratio rs js).matched_skills.length +
        (GapAnalyzer.analyze_gap ratio rs js).extra_skills.length
      ≤ rs.skills.length ∧
    (∀ j ∈ (GapAnalyzer.analyze_gap ratio rs js).missing_skills,
      SkillMatcher.normalize_skill_name j.name ∉
        (GapAnalyzer.analyze_gap ratio rs js).matched_skills.map
          (fun m => SkillMatcher.normalize_skill_name m.skill.name)) ∧
    (∀ r ∈ (GapAnalyzer.analyze_gap ratio rs js).extra_skills,
      SkillMatcher.normalize_skill_name r.name ∉
        (GapAnalyzer.analyze_gap ratio rs js).matched_skills.map
          (fun m => SkillMatcher.normalize_skill_name m.skill.name)) := by
  have hfields :
      (GapAnalyzer.analyze_gap ratio rs js).matched_skills
          = SkillMatcher.find_matches ratio rs.skills js.skills ∧
      (GapAnalyzer.analyze_gap ratio rs js).missing_skills
          = SkillMatcher.find_missing_skills ratio rs.skills js.skills ∧
      (GapAnalyzer.analyze_gap ratio rs js).extra_skills
          = SkillMatcher.find_extra_skills ratio rs.skills js.skills :=
    ⟨rfl, rfl, rfl⟩
  obtain ⟨hf1, hf2, hf3⟩ := hfields
  rw [hf1, hf2, hf3]
  set R := rs.skills with hR
  set J := js.skills with hJ
  refine ⟨?_, ?_, ?_, ?_⟩
  · -- JD side
    have hm : (SkillMatcher.find_matches ratio R J).length ≤
        (J.filter (fun j => R.any
          (fun r => (SkillMatcher.match_skills ratio r j).isSome))).length := by
      have := SkillMatcher.foldl_fmStep_length ratio R J ([], [])
      simpa [SkillMatcher.find_matches] using this
    have hmiss : (SkillMatcher.find_missing_skills ratio R J).length ≤
        (J.filter (fun j => !(R.any
          (fun r => (SkillMatcher.match_skills ratio r j).isSome)))).length := by
      unfold SkillMatcher.find_missing_skills
      dsimp only
      refine length_filter_le_of_imp _ _ _ ?_
      intro j hj hp
      rw [Bool.and_eq_true] at hp
      exact hp.2
    have hsum := length_filter_add_length_filter_not J
      (fun j => R.any (fun r => (SkillMatcher.match_skills ratio r j).isSome))
    omega
  · -- resume side
    have hinv := SkillMatcher.foldl_fmStep_inv ratio R J ([], [])
      ⟨rfl, List.nodup_nil, by intro i hi; cases hi⟩
    obtain ⟨hlen, hnd, hidx⟩ := hinv
    have hmle : (SkillMatcher.find_matches ratio R J).length ≤
        (R.filter (fun r => ((SkillMatcher.find_matches ratio R J).map
          (fun m => SkillMatcher.normalize_skill_name m.skill.name)).contains
            (SkillMatcher.normalize_skill_name r.name))).length := by
      have hlen' : (SkillMatcher.find_matches ratio R J).length
          = (J.foldl (SkillMatcher.fmStep ratio R) ([], [])).2.length := hlen
      rw [hlen']
      refine SkillMatcher.nodup_index_count R _ _ hnd ?_
      intro i hi
      obtain ⟨r, hget, hmem⟩ := hidx i hi
      exact ⟨r, hget, SkillMatcher.contains_of_mem hmem⟩
    have hextra : (SkillMatcher.find_extra_skills ratio R J).length ≤
        (R.filter (fun r => !(((SkillMatcher.find_matches ratio R J).map
          (fun m => SkillMatcher.normalize_skill_name m.skill.name)).contains
            (SkillMatcher.normalize_skill_name r.name)))).length := by
      unfold SkillMatcher.find_extra_skills
      dsimp only
      refine length_filter_le_of_imp _ _ _ ?_
      intro r hr hp
      rw [Bool.and_eq_true] at hp
      exact hp.1
    have hsum := length_filter_add_length_filter_not R
      (fun r => ((SkillMatcher.find_matches ratio R J).map
        (fun m => SkillMatcher.normalize_skill_name m.skill.name)).contains
          (SkillMatcher.normalize_skill_name r.name))
    omega
  · -- missing names disjoint from matched names
    intro j hj habs
    unfold SkillMatcher.find_missing_skills at hj
    dsimp only at hj
    have hp := (List.mem_filter.mp hj).2
    rw [Bool.and_eq_true] at hp
    have := SkillMatcher.contains_of_mem habs
    rw [this] at hp
    simp at hp
  · -- extra names disjoint from matched names
    intro r hr habs
    unfold SkillMatcher.find_extra_skills at hr
    dsimp only at hr
    have hp := (List.mem_filter.mp hr).2
    rw [Bool.and_eq_true] at hp
    have := SkillMatcher.contains_of_mem habs
    rw [this] at hp
    simp at hp

/-! ### Claim C2 -/

namespace SkillMatcher

/-- First-argmax accumulator used by the reference algorithm: replace the
best candidate so far only on strictly higher confidence, so ties keep the
earlier (resume-order) candidate. -/
def refPick (acc : Option (SkillMatch × Nat)) (c : SkillMatch × Nat) :
    Option (SkillMatch × Nat) :=
  match acc with
  | none => some c
  | some b => if b.1.confidence < c.1.confidence then some c else some b

/-- Modelled from the spec (§4.3): the candidate pool for one JD skill is
the not-yet-consumed resume skills (with their original positions) whose
4-tier test succeeds; the one with strictly highest confidence is selected,
ties going to the earliest resume position (first argmax). -/
def refBest (ratio : String → String → ℚ) (used : List Nat)
    (resume : List Skill) (jdS : Skill) : Option (SkillMatch × Nat) :=
  ((resume.enum).filterMap (fun p =>
      if p.1 ∈ used then none
      else (match_skills ratio p.2 jdS).map (fun m => (m, p.1)))).foldl refPick none

/-- Modelled from the spec (§4.3): process JD skills in original input
order, append the selected `SkillMatch` (which references the chosen resume
skill) and remove that resume skill from the pool; a JD skill with no
matching unconsumed resume skill contributes nothing. -/
def ref_find_matches (ratio : String → String → ℚ)
    (resume_skills jd_skills : List Skill) : List SkillMatch :=
  (jd_skills.foldl
    (fun st jdS =>
      match refBest ratio st.2 resume_skills jdS with
      | some mi => (st.1 ++ [mi.1], mi.2 :: st.2)
      | none => st)
    (([] : List SkillMatch), ([] : List Nat))).1

theorem foldl_filterMap {α β γ : Type} (f : α → Option β) (g : γ → β → γ) :
    ∀ (l : List α) (init : γ),
      (l.filterMap f).foldl g init =
        l.foldl (fun acc x => (f x).elim acc (g acc)) init := by
  intro l
  induction l with
  | nil => intro init; rfl
  | cons a t ih =>
    intro init
    cases hfa : f a <;> simp [List.filterMap_cons, hfa, ih, Option.elim]

theorem bestAux_eq_foldl (ratio : String → String → ℚ) (used : List Nat) (jdS : Skill) :
    ∀ (rs : List Skill) (i : Nat) (acc : Option (SkillMatch × Nat) × ℚ),
      bestAux ratio used jdS rs i acc =
        (rs.enumFrom i).foldl
          (fun acc p =>
            if p.1 ∈ used then acc
            else match match_skills ratio p.2 jdS with
              | none => acc
              | some m =>
                if acc.2 < m.confidence then (some (m, p.1), m.confidence) else acc)
          acc := by
  intro rs
  induction rs with
  | nil => intro i acc; rfl
  | cons r t ih =>
    intro i acc
    rw [bestAux, List.enumFrom, List.foldl_cons, ih]

theorem bestCandidate_eq_refBest (ratio : String → String → ℚ) (used : List Nat)
    (resume : List Skill) (jdS : Skill) :
    bestCandidate ratio used resume jdS = refBest ratio used resume jdS := by
  unfold bestCandidate refBest
  rw [bestAux_eq_foldl, foldl_filterMap]
  have key : ∀ (l : List (Nat × Skill)) (accB : Option (SkillMatch × Nat) × ℚ)
      (accR : Option (SkillMatch × Nat)),
      accB.1 = accR →
      accB.2 = (accR.elim 0 (fun c => c.1.confidence)) →
      ((l.foldl
          (fun acc p =>
            if p.1 ∈ used then acc
            else match match_skills ratio p.2 jdS with
              | none => acc
              | some m =>
                if acc.2 < m.confidence then (some (m, p.1), m.confidence) else acc)
          accB).1) =
        l.foldl
          (fun acc x =>
            ((if x.1 ∈ used then none
              else (match_skills ratio x.2 jdS).map (fun m => (m, x.1))).elim
              acc (refPick acc)))
          accR := by
    intro l
    induction l with
    | nil =>
      intro accB accR h1 h2
      exact h1
    | cons p t ih =>
      intro accB accR h1 h2
      rw [List.foldl_cons, List.foldl_cons]
      by_cases hu : p.1 ∈ used
      · rw [if_pos hu, if_pos hu]
        exact ih accB accR h1 h2
      · rw [if_neg hu, if_neg hu]
        cases hms : match_skills ratio p.2 jdS with
        | none => exact ih accB accR h1 h2
        | some m =>
          have hpos := match_skills_confidence_pos ratio hms
          dsimp only [Option.map_some', Option.elim]
          cases accR with
          | none =>
            have hc : accB.2 < m.confidence := by
              rw [h2]
              exact hpos
            rw [if_pos hc]
            exact ih _ _ rfl rfl
          | some b =>
            have h2q : accB.2 = b.1.confidence := h2
            dsimp only [refPick]
            by_cases hcmp : b.1.confidence < m.confidence
            · rw [if_pos (h2q ▸ hcmp), if_pos hcmp]
              exact ih _ _ rfl rfl
            · rw [if_neg (h2q ▸ hcmp), if_neg hcmp]
              exact ih _ _ h1 h2
  have henum : resume.enum = List.enumFrom 0 resume := rfl
  rw [henum]
  exact key (List.enumFrom 0 resume) (none, 0) none rfl rfl

end SkillMatcher

/-- Claim C2: `find_matches` coincides with the reference greedy algorithm
described by the spec — JD skills in input order, best-confidence unconsumed
resume skill with earliest-position tie-breaking, consumed indices removed
from the pool, unmatched JD skills contributing nothing — for every
similarity function and every pair of skill lists. -/
theorem claim_C2 (ratio : String → String → ℚ) (resume_skills jd_skills : List Skill) :
    SkillMatcher.find_matches ratio resume_skills jd_skills =
      SkillMatcher.ref_find_matches ratio resume_skills jd_skills := by
  unfold SkillMatcher.find_matches SkillMatcher.ref_find_matches
  have hstep : SkillMatcher.fmStep ratio resume_skills =
      (fun st jdS =>
        match SkillMatcher.refBest ratio st.2 resume_skills jdS with
        | some mi => (st.1 ++ [mi.1], mi.2 :: st.2)
        | none => st) := by
    funext st jdS
    rw [SkillMatcher.fmStep, SkillMatcher.bestCandidate_eq_refBest]
  rw [hstep]

/-! ### Claim C9 -/

/-- Claim C9: two skills with equal normalized names always produce an exact
match with confidence exactly 1.0 — the exact tier is tried first, before
synonym, fuzzy and category, for any similarity function. -/
theorem claim_C9 (ratio : String → String → ℚ) (s1 s2 : Skill)
    (h : SkillMatcher.normalize_skill_name s1.name
      = SkillMatcher.normalize_skill_name s2.name) :
    SkillMatcher.match_skills ratio s1 s2 = some ⟨s1, "exact", 1⟩ := by
  rw [SkillMatcher.match_skills_exact ratio s1 s2 h]
  rfl

def cSkillPyUpper : Skill := ⟨"Python", .programming_languages, none, []⟩

def cSkillPyLower : Skill := ⟨"python", .programming_languages, none, []⟩

/-- Witness for C9: `"Python"` vs `"python"` (case-insensitively equal
normalized names) yields an exact match of confidence 1. -/
theorem claim_C9_witness :
    SkillMatcher.match_skills SkillMatcher.levenshtein_ratio cSkillPyUpper cSkillPyLower
      = some ⟨cSkillPyUpper, "exact", 1⟩ :=
  claim_C9 SkillMatcher.levenshtein_ratio cSkillPyUpper cSkillPyLower (by decide)

/-! ### Concrete inputs used by counterexamples and witnesses -/

def cSkillPy : Skill := ⟨"python", .programming_languages, none, []⟩

def cSkillJava : Skill := ⟨"java", .programming_languages, none, []⟩

def cSkillGo : Skill := ⟨"go", .programming_languages, none, []⟩

def cGapEmpty : GapAnalysis := {}

def cSerEmpty : SkillExtractionResult := {}

/-- One matched technical skill. -/
def cGap5 : GapAnalysis := { matched_skills := [⟨cSkillPy, "exact", 1⟩] }

/-- A JD with three technical skills and no soft skills. -/
def cJd5 : SkillExtractionResult := { skills := [cSkillPy, cSkillJava, cSkillGo] }

/-- A JD with one technical skill. -/
def cJd8 : SkillExtractionResult := { skills := [cSkillPy] }

def cEduBCS : Education :=
  { degree := some "Bachelor's", field := some "Computer Science",
    required := true, preferred := false }

def cEduMPref : Education :=
  { degree := some "Master's", field := none, required := false, preferred := true }

/-! ### Claim C4 -/

/-- Claim C4: whenever the JD has required education entries and at least one
of them is matched by the resume (`_match_education`), the education score is
exactly `100.0` — the up-to-20-point preferred bonus is capped at 100 and can
never raise the score — and when required entries exist but none is matched,
the score is `0.0`. -/
theorem claim_C4 (resume_education jd_education : List Education)
    (hreq : jd_education.filter (fun e => e.required) ≠ []) :
    (FitScoreCalculator.match_education resume_education
        (jd_education.filter (fun e => e.required)) ≠ [] →
      FitScoreCalculator.calculate_education_score resume_education jd_education
        = some 100) ∧
    (FitScoreCalculator.match_education resume_education
        (jd_education.filter (fun e => e.required)) = [] →
      FitScoreCalculator.calculate_education_score resume_education jd_education
        = some 0) := by
  have hjd : ¬(jd_education = []) := by
    intro h
    rw [h] at hreq
    simp at hreq
  constructor
  · intro hm
    unfold FitScoreCalculator.calculate_education_score
    dsimp only
    rw [if_neg hjd, if_pos hreq, if_pos hm]
    by_cases hp : jd_education.filter (fun e => e.preferred) ≠ []
    · rw [if_pos hp]
      congr 1
      refine min_eq_left ?_
      have hb : (0 : ℚ) ≤
          ((FitScoreCalculator.match_education resume_education
            (jd_education.filter (fun e => e.preferred))).length : ℚ) /
            ((jd_education.filter (fun e => e.preferred)).length : ℚ) * 20 := by
        positivity
      linarith
    · rw [if_neg hp]
  · intro hm
    unfold FitScoreCalculator.calculate_education_score
    dsimp only
    rw [if_neg hjd, if_pos hreq, if_neg (not_not_intro hm)]

/-- Witness for C4: a resume with a required Bachelor's in Computer Science
against a JD requiring the same and preferring an (unmatched) Master's still
scores exactly 100. -/
theorem claim_C4_witness :
    FitScoreCalculator.calculate_education_score [cEduBCS] [cEduBCS, cEduMPref]
      = some 100 :=
  (claim_C4 [cEduBCS] [cEduBCS, cEduMPref] (by decide)).1 (by decide)

/-! ### Claim C5 -/

/-- The breakdown produced for `cGap5` / `cJd5` with default weights:
technical = 100/3 (rounded to 33.33), soft = 100, overall = 160/3 rounded
to 53.33. -/
def cB5 : FitScoreBreakdown :=
  ⟨5333 / 100, 3333 / 100, 100, none, none, 1, 0, 3, 7 / 10, 3 / 10⟩

theorem effectiveWeights_default :
    FitScoreCalculator.effectiveWeights none none = (7 / 10, 3 / 10) := by
  unfold FitScoreCalculator.effectiveWeights
  norm_num

theorem tech_eval_C5 :
    FitScoreCalculator.calculate_technical_score cGap5 cJd5 = 100 / 3 := by
  rw [@FitScoreCalculator.calculate_technical_score_of_counts cGap5 cJd5 1 3
    (by decide) (by decide) (by decide)]
  exact clamp_eval (by norm_num) (by norm_num) (by norm_num)

theorem soft_eval_C5 :
    FitScoreCalculator.calculate_soft_skills_score cGap5 cJd5 = 100 := by
  unfold FitScoreCalculator.calculate_soft_skills_score
  dsimp only
  rw [if_pos (by decide)]

theorem fit_eval_C5 :
    FitScoreCalculator.calculate_fit_score cGap5 cSerEmpty cJd5 none none true true
      = some cB5 := by
  unfold FitScoreCalculator.calculate_fit_score
  dsimp only
  rw [effectiveWeights_default, tech_eval_C5, soft_eval_C5]
  rw [show FitScoreCalculator.calculate_education_score cSerEmpty.education cJd5.education
    = none from by decide]
  rw [show FitScoreCalculator.calculate_certification_score cSerEmpty.certifications
    cJd5.certifications = none from by decide]
  rw [show ((100 : ℚ) / 3 * (7 / 10, 3 / 10).1 + 100 * (7 / 10, 3 / 10).2) = 160 / 3 from
    by norm_num]
  rw [show round2 (160 / 3 : ℚ) = 5333 / 100 from by
    rw [@round2_eq_of_floor (160 / 3) 5333 (by norm_num) (by norm_num)]
    norm_num]
  rw [show round2 (100 / 3 : ℚ) = 3333 / 100 from by
    rw [@round2_eq_of_floor (100 / 3) 3333 (by norm_num) (by norm_num)]
    norm_num]
  rw [show round2 (100 : ℚ) = 100 from by
    rw [@round2_eq_of_floor 100 10000 (by norm_num) (by norm_num)]
    norm_num]
  rw [FitScoreCalculator.mkFitScoreBreakdown_eq_some
    (by norm_num [scoreInRange, optScoreInRange])]
  rfl

/-- Counterexample for C5: with one of three technical JD skills matched and
default weights, the stored `overall_score` is `53.33`, which differs from
the exact weighted sum `160/3` of the unrounded sub-scores — so
`overall_score` is NOT placed in the breakdown unrounded. -/
theorem claim_C5_counterexample :
    (FitScoreCalculator.calculate_fit_score cGap5 cSerEmpty cJd5 none none true true).map
        FitScoreBreakdown.overall_score = some (5333 / 100 : ℚ) ∧
    (5333 / 100 : ℚ) ≠
      FitScoreCalculator.calculate_technical_score cGap5 cJd5 * (7 / 10) +
        FitScoreCalculator.calculate_soft_skills_score cGap5 cJd5 * (3 / 10) := by
  constructor
  · rw [fit_eval_C5]
    rfl
  · rw [tech_eval_C5, soft_eval_C5]
    norm_num

/-- Claim C5 (amended): every score field of the breakdown, including
`overall_score`, is rounded to 2 decimal places; `overall_score` equals the
rounding of the exact weighted sum of the unrounded technical and soft-skills
scores. -/
theorem claim_C5 (gap : GapAnalysis) (rs js : SkillExtractionResult)
    (tw sw : Option ℚ) (ie ic : Bool) (b : FitScoreBreakdown)
    (h : FitScoreCalculator.calculate_fit_score gap rs js tw sw ie ic = some b) :
    b.technical_score = round2 (FitScoreCalculator.calculate_technical_score gap js) ∧
    b.soft_skills_score = round2 (FitScoreCalculator.calculate_soft_skills_score gap js) ∧
    b.education_score = (if ie then
      FitScoreCalculator.calculate_education_score rs.education js.education
      else none).map round2 ∧
    b.certification_score = (if ic then
      FitScoreCalculator.calculate_certification_score rs.certifications js.certifications
      else none).map round2 ∧
    b.overall_score = round2
      (FitScoreCalculator.calculate_technical_score gap js *
          (FitScoreCalculator.effectiveWeights tw sw).1 +
        FitScoreCalculator.calculate_soft_skills_score gap js *
          (FitScoreCalculator.effectiveWeights tw sw).2) := by
  unfold FitScoreCalculator.calculate_fit_score at h
  dsimp only at h
  rw [FitScoreCalculator.mkFitScoreBreakdown_some h]
  exact ⟨rfl, rfl, rfl, rfl, rfl⟩

/-- Witness for C5 (amended), instantiated at the `cGap5`/`cJd5` input. -/
theorem claim_C5_witness :
    cB5.technical_score = round2 (FitScoreCalculator.calculate_technical_score cGap5 cJd5) ∧
    cB5.soft_skills_score =
      round2 (FitScoreCalculator.calculate_soft_skills_score cGap5 cJd5) ∧
    cB5.education_score = (if true then
      FitScoreCalculator.calculate_education_score cSerEmpty.education cJd5.education
      else none).map round2 ∧
    cB5.certification_score = (if true then
      FitScoreCalculator.calculate_certification_score cSerEmpty.certifications
        cJd5.certifications
      else none).map round2 ∧
    cB5.overall_score = round2
      (FitScoreCalculator.calculate_technical_score cGap5 cJd5 *
          (FitScoreCalculator.effectiveWeights none none).1 +
        FitScoreCalculator.calculate_soft_skills_score cGap5 cJd5 *
          (FitScoreCalculator.effectiveWeights none none).2) :=
  claim_C5 cGap5 cSerEmpty cJd5 none none true true cB5 fit_eval_C5

/-! ### Claim C6 -/

/-- The breakdown produced for empty inputs with weights 0.8 / 0.4. -/
def cB6 : FitScoreBreakdown :=
  ⟨100, 100, 100, none, none, 0, 0, 0, 2 / 3, 1 / 3⟩

theorem tech_eval_empty (js : SkillExtractionResult) (h : js.skills = []) :
    FitScoreCalculator.calculate_technical_score cGapEmpty js = 100 := by
  unfold FitScoreCalculator.calculate_technical_score
  dsimp only
  rw [if_pos (by rw [h]; rfl)]

theorem soft_eval_empty (js : SkillExtractionResult) (h : js.skills = []) :
    FitScoreCalculator.calculate_soft_skills_score cGapEmpty js = 100 := by
  unfold FitScoreCalculator.calculate_soft_skills_score
  dsimp only
  rw [if_pos (by rw [h]; rfl)]

theorem fit_eval_C6 :
    FitScoreCalculator.calculate_fit_score cGapEmpty cSerEmpty cSerEmpty
      (some (4 / 5)) (some (2 / 5)) true true = some cB6 := by
  unfold FitScoreCalculator.calculate_fit_score
  dsimp only
  rw [show FitScoreCalculator.effectiveWeights (some (4 / 5)) (some (2 / 5))
      = (2 / 3, 1 / 3) from by
    unfold FitScoreCalculator.effectiveWeights
    norm_num]
  rw [tech_eval_empty cSerEmpty rfl, soft_eval_empty cSerEmpty rfl]
  rw [show FitScoreCalculator.calculate_education_score cSerEmpty.education
    cSerEmpty.education = none from by decide]
  rw [show FitScoreCalculator.calculate_certification_score cSerEmpty.certifications
    cSerEmpty.certifications = none from by decide]
  rw [show ((100 : ℚ) * (2 / 3, 1 / 3).1 + 100 * (2 / 3, 1 / 3).2) = 100 from by norm_num]
  rw [show round2 (100 : ℚ) = 100 from by
    rw [@round2_eq_of_floor 100 10000 (by norm_num) (by norm_num)]
    norm_num]
  rw [FitScoreCalculator.mkFitScoreBreakdown_eq_some
    (by norm_num [scoreInRange, optScoreInRange])]
  rfl

theorem fit_eval_C6_zero :
    (FitScoreCalculator.calculate_fit_score cGapEmpty cSerEmpty cSerEmpty
      (some 0) (some 0) true true).map
        (fun b => (b.technical_weight, b.soft_skills_weight)) = some (0, 0) := by
  unfold FitScoreCalculator.calculate_fit_score
  dsimp only
  rw [show FitScoreCalculator.effectiveWeights (some 0) (some 0) = (0, 0) from by
    unfold FitScoreCalculator.effectiveWeights
    norm_num]
  rw [tech_eval_empty cSerEmpty rfl, soft_eval_empty cSerEmpty rfl]
  rw [show FitScoreCalculator.calculate_education_score cSerEmpty.education
    cSerEmpty.education = none from by decide]
  rw [show FitScoreCalculator.calculate_certification_score cSerEmpty.certifications
    cSerEmpty.certifications = none from by decide]
  rw [show ((100 : ℚ) * ((0 : ℚ), (0 : ℚ)).1 + 100 * ((0 : ℚ), (0 : ℚ)).2) = 0 from
    by norm_num]
  rw [show round2 (0 : ℚ) = 0 from by
    rw [@round2_eq_of_floor 0 0 (by norm_num) (by norm_num)]
    norm_num]
  rw [show round2 (100 : ℚ) = 100 from by
    rw [@round2_eq_of_floor 100 10000 (by norm_num) (by norm_num)]
    norm_num]
  rw [FitScoreCalculator.mkFitScoreBreakdown_eq_some
    (by norm_num [scoreInRange, optScoreInRange])]
  rfl

/-- Counterexample for C6: supplying `technical_weight = 0` and
`soft_skills_weight = 0` skips normalization (the guard requires a positive
sum), so the stored weights are `(0, 0)` and do not sum to 1. -/
theorem claim_C6_counterexample :
    (FitScoreCalculator.calculate_fit_score cGapEmpty cSerEmpty cSerEmpty
      (some 0) (some 0) true true).map
        (fun b => (b.technical_weight, b.soft_skills_weight)) = some (0, 0) ∧
    (0 : ℚ) + 0 ≠ 1 := by
  exact ⟨fit_eval_C6_zero, by norm_num⟩

/-- Claim C6 (amended): whenever the caller-supplied weights (after default
substitution, 0.7/0.3) have positive sum, each stored weight is the supplied
value divided by the sum and the stored weights sum to exactly 1; with no
supplied weights the defaults 0.7 and 0.3 are stored.  (When the sum is not
positive — e.g. both weights 0 — the guard skips normalization.) -/
theorem claim_C6 (gap : GapAnalysis) (rs js : SkillExtractionResult)
    (tw sw : Option ℚ) (ie ic : Bool) (b : FitScoreBreakdown)
    (hpos : 0 < tw.getD 0.7 + sw.getD 0.3)
    (h : FitScoreCalculator.calculate_fit_score gap rs js tw sw ie ic = some b) :
    b.technical_weight = tw.getD 0.7 / (tw.getD 0.7 + sw.getD 0.3) ∧
    b.soft_skills_weight = sw.getD 0.3 / (tw.getD 0.7 + sw.getD 0.3) ∧
    b.technical_weight + b.soft_skills_weight = 1 ∧
    (tw = none → sw = none →
      b.technical_weight = 0.7 ∧ b.soft_skills_weight = 0.3) := by
  unfold FitScoreCalculator.calculate_fit_score at h
  dsimp only at h
  rw [FitScoreCalculator.mkFitScoreBreakdown_some h]
  have hw1 : (FitScoreCalculator.effectiveWeights tw sw).1
      = tw.getD 0.7 / (tw.getD 0.7 + sw.getD 0.3) := by
    unfold FitScoreCalculator.effectiveWeights
    dsimp only
    rw [if_pos hpos]
  have hw2 : (FitScoreCalculator.effectiveWeights tw sw).2
      = sw.getD 0.3 / (tw.getD 0.7 + sw.getD 0.3) := by
    unfold FitScoreCalculator.effectiveWeights
    dsimp only
    rw [if_pos hpos]
  refine ⟨hw1, hw2, ?_, ?_⟩
  · rw [hw1, hw2, div_add_div_same, div_self (ne_of_gt hpos)]
  · intro h1 h2
    subst h1
    subst h2
    constructor
    · rw [hw1]
      simp only [Option.getD_none]
      norm_num
    · rw [hw2]
      simp only [Option.getD_none]
      norm_num

/-- Witness for C6 (amended): weights 0.8 and 0.4 (written 4/5 and 2/5) are
stored as `0.8/1.2 = 2/3` and `0.4/1.2 = 1/3`, summing to exactly 1. -/
theorem claim_C6_witness :
    cB6.technical_weight
        = (some (4 / 5 : ℚ)).getD 0.7 / ((some (4 / 5 : ℚ)).getD 0.7
          + (some (2 / 5 : ℚ)).getD 0.3) ∧
    cB6.soft_skills_weight
        = (some (2 / 5 : ℚ)).getD 0.3 / ((some (4 / 5 : ℚ)).getD 0.7
          + (some (2 / 5 : ℚ)).getD 0.3) ∧
    cB6.technical_weight + cB6.soft_skills_weight = 1 ∧
    (some (4 / 5 : ℚ) = none → some (2 / 5 : ℚ) = none →
      cB6.technical_weight = 0.7 ∧ cB6.soft_skills_weight = 0.3) :=
  claim_C6 cGapEmpty cSerEmpty cSerEmpty (some (4 / 5)) (some (2 / 5)) true true cB6
    (by norm_num) fit_eval_C6

/-! ### Claim C7 -/

/-- Claim C7: a JD with zero technical-category skills yields a technical
score of exactly 100 regardless of the gap analysis, and symmetrically for
the soft-skills score; with an empty JD skill list both scores are 100.  The
ratio branch is only reached when the corresponding JD filter is non-empty,
in which case its length is positive, so the division is never by zero. -/
theorem claim_C7 (gap : GapAnalysis) (js : SkillExtractionResult) :
    (js.skills.filter (fun s => s.category ∈ GapAnalyzer.TECHNICAL_CATEGORIES) = [] →
      FitScoreCalculator.calculate_technical_score gap js = 100) ∧
    (js.skills.filter (fun s => s.category ∈ GapAnalyzer.SOFT_SKILL_CATEGORIES) = [] →
      FitScoreCalculator.calculate_soft_skills_score gap js = 100) ∧
    (js.skills = [] →
      FitScoreCalculator.calculate_technical_score gap js = 100 ∧
      FitScoreCalculator.calculate_soft_skills_score gap js = 100) ∧
    (js.skills.filter (fun s => s.category ∈ GapAnalyzer.TECHNICAL_CATEGORIES) ≠ [] →
      0 < (js.skills.filter
        (fun s => s.category ∈ GapAnalyzer.TECHNICAL_CATEGORIES)).length ∧
      FitScoreCalculator.calculate_technical_score gap js =
        min 100 (max 0
          (((gap.matched_skills.filter
              (fun m => m.skill.category ∈ GapAnalyzer.TECHNICAL_CATEGORIES)).length : ℚ) /
            ((js.skills.filter
              (fun s => s.category ∈ GapAnalyzer.TECHNICAL_CATEGORIES)).length : ℚ)
            * 100))) ∧
    (js.skills.filter (fun s => s.category ∈ GapAnalyzer.SOFT_SKILL_CATEGORIES) ≠ [] →
      0 < (js.skills.filter
        (fun s => s.category ∈ GapAnalyzer.SOFT_SKILL_CATEGORIES)).length ∧
      FitScoreCalculator.calculate_soft_skills_score gap js =
        min 100 (max 0
          (((gap.matched_skills.filter
              (fun m => m.skill.category ∈ GapAnalyzer.SOFT_SKILL_CATEGORIES)).length : ℚ) /
            ((js.skills.filter
              (fun s => s.category ∈ GapAnalyzer.SOFT_SKILL_CATEGORIES)).length : ℚ)
            * 100))) := by
  refine ⟨?_, ?_, ?_, ?_, ?_⟩
  · intro h
    unfold FitScoreCalculator.calculate_technical_score
    dsimp only
    rw [if_pos h]
  · intro h
    unfold FitScoreCalculator.calculate_soft_skills_score
    dsimp only
    rw [if_pos h]
  · intro h
    constructor
    · unfold FitScoreCalculator.calculate_technical_score
      dsimp only
      rw [if_pos (by rw [h]; rfl)]
    · unfold FitScoreCalculator.calculate_soft_skills_score
      dsimp only
      rw [if_pos (by rw [h]; rfl)]
  · intro h
    refine ⟨List.length_pos.mpr h, ?_⟩
    unfold FitScoreCalculator.calculate_technical_score
    dsimp only
    rw [if_neg h]
  · intro h
    refine ⟨List.length_pos.mpr h, ?_⟩
    unfold FitScoreCalculator.calculate_soft_skills_score
    dsimp only
    rw [if_neg h]

/-- Witness for C7: an empty JD gives both vacuous-pass scores, and a JD with
one technical skill reaches the ratio branch with a positive denominator. -/
theorem claim_C7_witness :
    (FitScoreCalculator.calculate_technical_score cGapEmpty cSerEmpty = 100 ∧
      FitScoreCalculator.calculate_soft_skills_score cGapEmpty cSerEmpty = 100) ∧
    0 < (cJd8.skills.filter
      (fun s => s.category ∈ GapAnalyzer.TECHNICAL_CATEGORIES)).length :=
  ⟨(claim_C7 cGapEmpty cSerEmpty).2.2.1 rfl,
    ((claim_C7 cGapEmpty cJd8).2.2.2.1 (by decide)).1⟩

/-! ### Claim C8 -/

theorem tech_eval_C8 :
    FitScoreCalculator.calculate_technical_score cGapEmpty cJd8 = 0 := by
  rw [@FitScoreCalculator.calculate_technical_score_of_counts cGapEmpty cJd8 0 1
    (by decide) (by decide) (by decide)]
  exact clamp_eval (by norm_num) (by norm_num) (by norm_num)

theorem soft_eval_C8 :
    FitScoreCalculator.calculate_soft_skills_score cGapEmpty cJd8 = 100 := by
  unfold FitScoreCalculator.calculate_soft_skills_score
  dsimp only
  rw [if_pos (by decide)]

/-- Counterexample for C8: with supplied weights `-1` and `2` (sum `1 > 0`,
so they are kept as-is by the normalization guard), a JD with one unmatched
technical skill and no soft skills gives the unclamped overall score
`0 * (-1) + 100 * 2 = 200 > 100`, and constructing the `FitScoreBreakdown`
fails its `[0, 100]` range validation — `calculate_fit_score` does not
return a breakdown. -/
theorem claim_C8_counterexample :
    FitScoreCalculator.calculate_fit_score cGapEmpty cSerEmpty cJd8
      (some (-1)) (some 2) true true = none ∧
    FitScoreCalculator.calculate_technical_score cGapEmpty cJd8 * (-1) +
      FitScoreCalculator.calculate_soft_skills_score cGapEmpty cJd8 * 2 = 200 ∧
    ¬((200 : ℚ) ≤ 100) := by
  refine ⟨?_, ?_, by norm_num⟩
  · unfold FitScoreCalculator.calculate_fit_score
    dsimp only
    rw [show FitScoreCalculator.effectiveWeights (some (-1)) (some 2) = (-1, 2) from by
      unfold FitScoreCalculator.effectiveWeights
      norm_num]
    rw [tech_eval_C8, soft_eval_C8]
    rw [show ((0 : ℚ) * ((-1 : ℚ), (2 : ℚ)).1 + 100 * ((-1 : ℚ), (2 : ℚ)).2) = 200 from
      by norm_num]
    rw [show round2 (200 : ℚ) = 200 from by
      rw [@round2_eq_of_floor 200 20000 (by norm_num) (by norm_num)]
      norm_num]
    unfold mkFitScoreBreakdown
    rw [if_neg]
    intro hc
    have h200 : (200 : ℚ) ≤ 100 := hc.1.2
    norm_num at h200
  · rw [tech_eval_C8, soft_eval_C8]
    norm_num

/-- Claim C8 (amended): whenever the supplied weights (after default
substitution) are nonnegative, the overall score — the plain weighted sum,
never clamped — lies in `[0, 100]`, every other score field passes its range
check too, and `calculate_fit_score` returns a breakdown.  (A negative
supplied weight can push the overall score outside `[0, 100]` and make the
construction fail, see the counterexample.) -/
theorem claim_C8 (gap : GapAnalysis) (rs js : SkillExtractionResult)
    (tw sw : Option ℚ) (ie ic : Bool)
    (h1 : 0 ≤ tw.getD 0.7) (h2 : 0 ≤ sw.getD 0.3) :
    ∃ b, FitScoreCalculator.calculate_fit_score gap rs js tw sw ie ic = some b ∧
      0 ≤ b.overall_score ∧ b.overall_score ≤ 100 := by
  obtain ⟨hw1, hw2, hw3⟩ := FitScoreCalculator.effectiveWeights_props tw sw h1 h2
  obtain ⟨ht0, ht1⟩ := FitScoreCalculator.technical_score_bounds gap js
  obtain ⟨hs0, hs1⟩ := FitScoreCalculator.soft_skills_score_bounds gap js
  have hov0 : 0 ≤ FitScoreCalculator.calculate_technical_score gap js *
      (FitScoreCalculator.effectiveWeights tw sw).1 +
      FitScoreCalculator.calculate_soft_skills_score gap js *
      (FitScoreCalculator.effectiveWeights tw sw).2 :=
    add_nonneg (mul_nonneg ht0 hw1) (mul_nonneg hs0 hw2)
  have hov1 : FitScoreCalculator.calculate_technical_score gap js *
      (FitScoreCalculator.effectiveWeights tw sw).1 +
      FitScoreCalculator.calculate_soft_skills_score gap js *
      (FitScoreCalculator.effectiveWeights tw sw).2 ≤ 100 := by
    calc FitScoreCalculator.calculate_technical_score gap js *
        (FitScoreCalculator.effectiveWeights tw sw).1 +
        FitScoreCalculator.calculate_soft_skills_score gap js *
        (FitScoreCalculator.effectiveWeights tw sw).2
        ≤ 100 * (FitScoreCalculator.effectiveWeights tw sw).1 +
          100 * (FitScoreCalculator.effectiveWeights tw sw).2 :=
        add_le_add (mul_le_mul_of_nonneg_right ht1 hw1)
          (mul_le_mul_of_nonneg_right hs1 hw2)
      _ = 100 * ((FitScoreCalculator.effectiveWeights tw sw).1 +
          (FitScoreCalculator.effectiveWeights tw sw).2) := by ring
      _ ≤ 100 * 1 := by linarith
      _ = 100 := by norm_num
  obtain ⟨hr0, hr1⟩ := round2_bounds hov0 hov1
  obtain ⟨hrt0, hrt1⟩ := round2_bounds ht0 ht1
  obtain ⟨hrs0, hrs1⟩ := round2_bounds hs0 hs1
  have hedu : optScoreInRange
      ((if ie then FitScoreCalculator.calculate_education_score rs.education js.education
        else none).map round2) := by
    split_ifs with hie
    · cases hcase : FitScoreCalculator.calculate_education_score rs.education js.education with
      | none => exact trivial
      | some q =>
        obtain ⟨hq0, hq1⟩ := FitScoreCalculator.education_score_bounds _ _ hcase
        obtain ⟨hr0', hr1'⟩ := round2_bounds hq0 hq1
        exact ⟨hr0', hr1'⟩
    · exact trivial
  have hcert : optScoreInRange
      ((if ic then FitScoreCalculator.calculate_certification_score rs.certifications
          js.certifications
        else none).map round2) := by
    split_ifs with hic
    · cases hcase : FitScoreCalculator.calculate_certification_score rs.certifications
          js.certifications with
      | none => exact trivial
      | some q =>
        obtain ⟨hq0, hq1⟩ := FitScoreCalculator.certification_score_bounds _ _ hcase
        obtain ⟨hr0', hr1'⟩ := round2_bounds hq0 hq1
        exact ⟨hr0', hr1'⟩
    · exact trivial
  refine ⟨⟨round2 (FitScoreCalculator.calculate_technical_score gap js *
        (FitScoreCalculator.effectiveWeights tw sw).1 +
        FitScoreCalculator.calculate_soft_skills_score gap js *
        (FitScoreCalculator.effectiveWeights tw sw).2),
      round2 (FitScoreCalculator.calculate_technical_score gap js),
      round2 (FitScoreCalculator.calculate_soft_skills_score gap js),
      (if ie then FitScoreCalculator.calculate_education_score rs.education js.education
        else none).map round2,
      (if ic then FitScoreCalculator.calculate_certification_score rs.certifications
          js.certifications
        else none).map round2,
      gap.matched_skills.length, gap.missing_skills.length, js.skills.length,
      (FitScoreCalculator.effectiveWeights tw sw).1,
      (FitScoreCalculator.effectiveWeights tw sw).2⟩, ?_, hr0, hr1⟩
  unfold FitScoreCalculator.calculate_fit_score
  dsimp only
  exact FitScoreCalculator.mkFitScoreBreakdown_eq_some
    ⟨⟨hr0, hr1⟩, ⟨hrt0, hrt1⟩, ⟨hrs0, hrs1⟩, hedu, hcert⟩

/-- Witness for C8 (amended) at the `cGap5`/`cJd5` input with default
weights. -/
theorem claim_C8_witness :
    ∃ b, FitScoreCalculator.calculate_fit_score cGap5 cSerEmpty cJd5 none none true true
      = some b ∧ 0 ≤ b.overall_score ∧ b.overall_score ≤ 100 :=
  claim_C8 cGap5 cSerEmpty cJd5 none none true true (by norm_num) (by norm_num)

/-! ### Claim C10 -/

/-- Modelled from the claim's wording: `_normalize_degree` returns the
canonical value of the first key, in the fixed table order, occurring as a
substring of the lowercased-and-stripped input, and the lowercased-stripped
input itself when no key occurs. -/
def degreeFirstKeySpec (d : String) : String :=
  match FitScoreCalculator.degree_mapping.find?
      (fun kv => strContains kv.1.data (pyLowerStrip d).data) with
  | some kv => kv.2
  | none => pyLowerStrip d

theorem findDegree_eq_find? (l : List (String × String)) (dl : String) :
    FitScoreCalculator.findDegree l dl =
      (l.find? (fun kv => strContains kv.1.data dl.data)).map Prod.snd := by
  induction l with
  | nil => rfl
  | cons kv rest ih =>
    by_cases h : strContains kv.1.data dl.data = true
    · rw [FitScoreCalculator.findDegree, if_pos h]
      simp only [List.find?, h, Option.map_some']
    · rw [FitScoreCalculator.findDegree, if_neg h, ih]
      have hf : strContains kv.1.data dl.data = false := by simpa using h
      simp only [List.find?, hf]

/-- Claim C10: degree normalization is substring containment against the
table in its definition order (not an exact lookup); e.g. `"MBA"` normalizes
to `"bachelor"` because it contains the key `"ba"`, and an input containing
no key is returned lowercased (and stripped). -/
theorem claim_C10 :
    (∀ d, FitScoreCalculator.normalize_degree d = degreeFirstKeySpec d) ∧
    FitScoreCalculator.normalize_degree "MBA" = "bachelor" ∧
    FitScoreCalculator.normalize_degree "Associate" = "associate" := by
  refine ⟨fun d => ?_, by decide, by decide⟩
  unfold FitScoreCalculator.normalize_degree degreeFirstKeySpec
  dsimp only
  rw [findDegree_eq_find?]
  cases (FitScoreCalculator.degree_mapping.find?
      (fun kv => strContains kv.1.data (pyLowerStrip d).data)) <;> rfl

end CapstoneApp
